import Mathlib

/-!
Verification of the Bubble Graph Engine of the `ai-tutor-backend` repository.

The definitions below are a shallow embedding of the Python source:

* `app/schemas/session.py` — graph schema types (`BubbleNodeSchema`,
  `GraphEdge`, `BubbleGraph`, request and response records);
* `app/models/session.py` — `BubbleType`, `BubbleNode`, `StudentState`;
* `app/services/graph_service.py` — adjacency, cycle detection
  (`_has_cycles`), reachability (`_find_unreachable_nodes`), dead ends,
  `get_next_nodes`, `get_valid_paths`, `validate_graph`;
* `app/services/session_service.py` — `_evaluate_response`,
  `advance_bubble`, `start_session`.

Conventions of the embedding: Python `datetime` values are abstract `Nat`
timestamps; `float` percentages are modelled as `ℚ` (the code only ever
stores exact expressions `(c / n) * 100`); Python dicts are association
lists; a Python `raise` escaping a service method is an `Except.error`
value; presentation-only fields (coordinates, colors, labels) are omitted
because the engine never reads them.  Recursions that Python runs unbounded
are given explicit fuel, always instantiated so that it provably never runs
out (the fuel-stability lemmas below show the chosen fuel reaches the fixed
point of the recursion).
-/

deriving instance DecidableEq for Except

namespace AITutor

/-- Enumeration of learning bubble types, from `BubbleType` in
`app/models/session.py`. -/
inductive BubbleType where
  | concept
  | task
  | quiz
  | demo
  | summary
deriving DecidableEq, Repr

/-- Bubble node of the graph JSON, from `BubbleNodeSchema` in
`app/schemas/session.py` (presentation coordinates omitted: opaque to the
engine). -/
structure BubbleNodeSchema where
  id : String
  type : BubbleType
  title : String
deriving DecidableEq, Repr

/-- Directed edge of the bubble graph, from `GraphEdgeSchema` in
`app/schemas/session.py` (optional label and condition omitted: never read
by the engine). -/
structure GraphEdge where
  from_node : String
  to_node : String
deriving DecidableEq, Repr

/-- Complete bubble graph, from `BubbleGraphSchema` in
`app/schemas/session.py`. -/
structure BubbleGraph where
  start_node : String
  nodes : List BubbleNodeSchema
  edges : List GraphEdge
deriving DecidableEq, Repr

/-- Pydantic validator on `BubbleGraphSchema.edges`: every edge references
an existing node id (`validate_edges` in `app/schemas/session.py`). -/
def EdgesValid (g : BubbleGraph) : Prop :=
  ∀ e ∈ g.edges, e.from_node ∈ g.nodes.map BubbleNodeSchema.id ∧
    e.to_node ∈ g.nodes.map BubbleNodeSchema.id

instance (g : BubbleGraph) : Decidable (EdgesValid g) := by
  unfold EdgesValid; infer_instance

/-- Stored bubble node row, from the `BubbleNode` model in
`app/models/session.py`; only the fields the engine reads during
evaluation are kept. -/
structure BubbleNode where
  node_id : String
  type : BubbleType
  title : String
  expected_output : Option String
  hints : Option (List String)
  coin_reward : Int
deriving DecidableEq, Repr

/-- Per-student progression record, from the `StudentState` model in
`app/models/session.py`. -/
structure StudentState where
  student_id : Int
  session_id : Int
  current_node_id : Option String
  completed_nodes : List String
  failed_attempts : List (String × Nat)
  total_coins : Int
  is_completed : Bool
  completion_percentage : ℚ
  started_at : Nat
  last_activity_at : Nat
  completed_at : Option Nat
  total_time_spent : Int
deriving DecidableEq, Repr

/-- Request payload of `advance`, from `BubbleAdvanceRequest` in
`app/schemas/session.py`. -/
structure BubbleAdvanceRequest where
  node_id : String
  student_response : String
  code_output : Option String
  time_spent : Option Int
deriving DecidableEq, Repr

/-- Response payload of `advance`, from `BubbleAdvanceResponse` in
`app/schemas/session.py`. -/
structure BubbleAdvanceResponse where
  success : Bool
  next_node_id : Option String
  feedback : String
  coins_earned : Int
  is_session_complete : Bool
  hints_available : List String
deriving DecidableEq, Repr

/-- Exceptions that `advance_bubble` raises (the `raise ValueError`
branches of `SessionService.advance_bubble`); a raise that escapes the
method is modelled as an `Except.error` of this type. -/
inductive AdvanceError where
  | studentStateNotFound
  | sessionNotFound
  | nodeNotFound (node_id : String)
deriving DecidableEq, Repr

/-- Python `str.strip()` with no argument: drop leading and trailing
whitespace (the embedding uses `Char.isWhitespace`, covering the ASCII
whitespace the tests exercise). -/
def pyStrip (s : String) : String :=
  String.mk (((s.data.dropWhile Char.isWhitespace).reverse.dropWhile
    Char.isWhitespace).reverse)

/-- Python `str.lower()` (ASCII case folding, as `Char.toLower`). -/
def pyLower (s : String) : String :=
  String.mk (s.data.map Char.toLower)

/-- Python dictionary read `d.get(k)` on a `Dict[str, int]`, used for
`failed_attempts`. -/
def dictGet (d : List (String × Nat)) (k : String) : Option Nat :=
  (d.find? (fun p => p.1 = k)).map (fun p => p.2)

/-- Python dictionary write `d[k] = v` on a `Dict[str, int]`: overwrite in
place when the key is present, append otherwise. -/
def dictSet (d : List (String × Nat)) (k : String) (v : Nat) :
    List (String × Nat) :=
  if (d.find? (fun p => p.1 = k)).isSome then
    d.map (fun p => if p.1 = k then (k, v) else p)
  else d ++ [(k, v)]

/-- Adjacency-list lookup: the `defaultdict` built by
`for edge in graph.edges: adj_list[edge.from_node].append(edge.to_node)` in
`GraphService._has_cycles` and `_find_unreachable_nodes`, read at one key
(a missing key yields `[]`, as for a `defaultdict(list)`). -/
def adjacency (edges : List GraphEdge) (v : String) : List String :=
  (edges.filter (fun e => e.from_node = v)).map GraphEdge.to_node

/-- Direct-successor lookup, from `GraphService.get_next_nodes`: all
`to_node`s of edges leaving `current_node`, in edge declaration order. -/
def get_next_nodes (graph : BubbleGraph) (current_node : String) : List String :=
  (graph.edges.filter (fun e => e.from_node = current_node)).map GraphEdge.to_node

/-- Specification-level edge relation of a bubble graph: `a` steps to `b`
when the graph has an edge from `a` to `b`. -/
def EdgeRel (g : BubbleGraph) (a b : String) : Prop :=
  ({ from_node := a, to_node := b } : GraphEdge) ∈ g.edges

instance (g : BubbleGraph) (a b : String) : Decidable (EdgeRel g a b) := by
  unfold EdgeRel; infer_instance

/-- Specification-level cycle existence: some vertex reaches itself by a
non-empty directed path. -/
def HasCycleSpec (g : BubbleGraph) : Prop :=
  ∃ v, Relation.TransGen (EdgeRel g) v v

/-- Specification-level reachability from the start node by a directed
path (possibly empty). -/
def ReachableFromStart (g : BubbleGraph) (v : String) : Prop :=
  Relation.ReflTransGen (EdgeRel g) g.start_node v

/-- Finite universe of strings the graph algorithms can ever touch: node
ids, edge endpoints and the start node.  Used only to size the fuel of the
embedded recursions. -/
def graphVerts (g : BubbleGraph) : Finset String :=
  (g.nodes.map BubbleNodeSchema.id).toFinset ∪
    (g.edges.map GraphEdge.from_node).toFinset ∪
    (g.edges.map GraphEdge.to_node).toFinset ∪ {g.start_node}

mutual

/-- Inner recursion `dfs(node)` of `GraphService._has_cycles`: returns the
`True`/`False` result together with the `visited` and `rec_stack` sets as
they stand when the call returns (on an early `return True` the stack is
not popped, exactly as in the Python).  Fuel replaces the unbounded Python
recursion; fuel `0` answers `False` and the fuel-sufficiency lemmas show
the branch is never reached at the fuel used by `has_cycles`. -/
def dfsVisit (adj : String → List String) (fuel : Nat)
    (visited rec_stack : Finset String) (node : String) :
    Bool × Finset String × Finset String :=
  match fuel with
  | 0 => (false, visited, rec_stack)
  | fuel + 1 =>
    if node ∈ rec_stack then (true, visited, rec_stack)
    else if node ∈ visited then (false, visited, rec_stack)
    else
      let result := dfsList adj fuel (insert node visited) (insert node rec_stack) (adj node)
      if result.1 then (true, result.2.1, result.2.2)
      else (false, result.2.1, result.2.2.erase node)
termination_by (fuel, 0)

/-- Neighbor loop `for neighbor in adj_list[node]: if dfs(neighbor):
return True` of `GraphService._has_cycles`, threading the mutable
`visited`/`rec_stack` sets left to right and stopping at the first
`True`. -/
def dfsList (adj : String → List String) (fuel : Nat)
    (visited rec_stack : Finset String) (ns : List String) :
    Bool × Finset String × Finset String :=
  match ns with
  | [] => (false, visited, rec_stack)
  | n :: rest =>
    let result := dfsVisit adj fuel visited rec_stack n
    if result.1 then (true, result.2.1, result.2.2)
    else dfsList adj fuel result.2.1 result.2.2 rest
termination_by (fuel, ns.length + 1)

end

/-- Outer loop `for node in [n.id for n in graph.nodes]: if node not in
visited: if dfs(node): return True` of `GraphService._has_cycles`. -/
def cyclesLoop (adj : String → List String) (fuel : Nat) :
    Finset String → Finset String → List String → Bool
  | _, _, [] => false
  | visited, rec_stack, node :: rest =>
    if node ∈ visited then cyclesLoop adj fuel visited rec_stack rest
    else
      let result := dfsVisit adj fuel visited rec_stack node
      if result.1 then true
      else cyclesLoop adj fuel result.2.1 result.2.2 rest

/-- Cycle check of `GraphService._has_cycles`: depth-first search with a
recursion stack, run from every not-yet-visited node id. -/
def has_cycles (g : BubbleGraph) : Bool :=
  cyclesLoop (adjacency g.edges) ((graphVerts g).card + 1) ∅ ∅
    (g.nodes.map BubbleNodeSchema.id)

/-- Inner loop `for neighbor in adj_list[current]: if neighbor not in
visited: visited.add(neighbor); queue.append(neighbor)` of
`GraphService._find_unreachable_nodes`, processed sequentially. -/
def bfsStep (visited : Finset String) (queue : List String) :
    List String → Finset String × List String
  | [] => (visited, queue)
  | n :: ns =>
    if n ∈ visited then bfsStep visited queue ns
    else bfsStep (insert n visited) (queue ++ [n]) ns

/-- Outer loop `while queue: current = queue.popleft(); ...` of
`GraphService._find_unreachable_nodes`, returning the final `visited`
set.  Fuel replaces the unbounded Python loop. -/
def bfsLoop (adj : String → List String) : Nat → Finset String → List String → Finset String
  | 0, visited, _ => visited
  | _ + 1, visited, [] => visited
  | fuel + 1, visited, current :: rest =>
    let step := bfsStep visited rest (adj current)
    bfsLoop adj fuel step.1 step.2

/-- Set of nodes visited by the breadth-first search of
`GraphService._find_unreachable_nodes`, seeded with the start node. -/
def bfsVisited (g : BubbleGraph) : Finset String :=
  bfsLoop (adjacency g.edges) ((graphVerts g).card + 1) {g.start_node} [g.start_node]

/-- Unreachable-node report of `GraphService._find_unreachable_nodes`:
`list(all_nodes - visited)` (the Python set difference has no specified
order; the embedding lists survivors in node declaration order, and all
claims about it are membership claims). -/
def find_unreachable_nodes (g : BubbleGraph) : List String :=
  (g.nodes.map BubbleNodeSchema.id).filter (fun v => v ∉ bfsVisited g)

/-- Dead-end report of `GraphService._find_dead_ends`: node ids with no
outgoing edge (again a Python set difference, embedded in declaration
order). -/
def find_dead_ends (g : BubbleGraph) : List String :=
  (g.nodes.map BubbleNodeSchema.id).filter
    (fun v => g.edges.all (fun e => ¬ e.from_node = v))

/-- Edge connectivity errors of `GraphService._validate_edges`. -/
def validate_edges (edges : List GraphEdge) (node_ids : Finset String) : List String :=
  edges.flatMap (fun edge =>
    let f := edge.from_node
    let t := edge.to_node
    (if edge.from_node ∉ node_ids then [s!"Edge references unknown from_node: {f}"] else []) ++
      (if edge.to_node ∉ node_ids then [s!"Edge references unknown to_node: {t}"] else []) ++
      (if edge.from_node = edge.to_node then [s!"Self-loop detected: {f} -> {t}"] else []))

/-- Content warnings of `GraphService._validate_node_content`: empty-title
warnings in node order, then the two balance warnings. -/
def validate_node_content (nodes : List BubbleNodeSchema) : List String :=
  let title_warnings := nodes.flatMap (fun node =>
    let i := node.id
    if node.title = "" ∨ (pyStrip node.title).length = 0 then [s!"Node {i} has empty title"] else [])
  let concept_count := (nodes.filter (fun n => n.type = BubbleType.concept)).length
  let task_count := (nodes.filter (fun n => n.type = BubbleType.task)).length
  let quiz_count := (nodes.filter (fun n => n.type = BubbleType.quiz)).length
  title_warnings ++
    (if concept_count = 0 then
      ["No concept bubbles found - consider adding explanatory content"] else []) ++
    (if task_count = 0 ∧ quiz_count = 0 then
      ["No interactive bubbles found - consider adding tasks or quizzes"] else [])

/-- Result record of graph validation, from `GraphValidationResponse` in
`app/schemas/session.py`. -/
structure GraphValidationResponse where
  is_valid : Bool
  errors : List String
  warnings : List String
  node_count : Nat
  edge_count : Nat
  has_cycles : Bool
  unreachable_nodes : List String
deriving DecidableEq, Repr

/-- Graph validation, from `GraphService.validate_graph`: structural
errors plus advisory warnings; an empty graph short-circuits with the
single error and `has_cycles = false`. -/
def validate_graph (g : BubbleGraph) : GraphValidationResponse :=
  let node_count := g.nodes.length
  let edge_count := g.edges.length
  if node_count = 0 then
    { is_valid := false, errors := ["Graph must have at least one node"],
      warnings := [], node_count := 0, edge_count := 0, has_cycles := false,
      unreachable_nodes := [] }
  else
    let node_ids := (g.nodes.map BubbleNodeSchema.id).toFinset
    let s := g.start_node
    let start_errors :=
      if g.start_node ∉ node_ids then [s!"Start node {s} not found in graph nodes"] else []
    let edge_errors := validate_edges g.edges node_ids
    let errors := start_errors ++ edge_errors
    let cyc := has_cycles g
    let cycle_warnings :=
      if cyc then ["Graph contains cycles - students may get stuck in loops"] else []
    let unreachable := find_unreachable_nodes g
    let joined := String.intercalate ", " unreachable
    let unreachable_warnings :=
      if unreachable ≠ [] then [s!"Unreachable nodes found: {joined}"] else []
    let dead_ends := find_dead_ends g
    let joined_dead := String.intercalate ", " dead_ends
    let dead_end_warnings :=
      if 1 < dead_ends.length then [s!"Multiple dead ends found: {joined_dead}"] else []
    let content_warnings := validate_node_content g.nodes
    let warnings := cycle_warnings ++ unreachable_warnings ++ dead_end_warnings ++ content_warnings
    { is_valid := errors.length = 0, errors := errors, warnings := warnings,
      node_count := node_count, edge_count := edge_count, has_cycles := cyc,
      unreachable_nodes := unreachable }

/-- Recursion `dfs_paths(current, path, visited)` of
`GraphService.get_valid_paths`: emits the extended path at a node with no
successors, refuses to revisit a node already in `visited`, otherwise
recurses into each successor (paths accumulate in loop order, modelled by
`flatMap`).  Fuel replaces the unbounded Python recursion. -/
def dfsPaths (adj : String → List String) : Nat → String → List String → Finset String → List (List String)
  | 0, _, _, _ => []
  | fuel + 1, current, path, visited =>
    if current ∈ visited then []
    else
      let new_path := path ++ [current]
      let new_visited := insert current visited
      let next_nodes := adj current
      if next_nodes = [] then [new_path]
      else next_nodes.flatMap (fun n => dfsPaths adj fuel n new_path new_visited)

/-- Path enumeration of `GraphService.get_valid_paths`: all simple paths
from the start node to a node with no outgoing edges. -/
def get_valid_paths (g : BubbleGraph) : List (List String) :=
  dfsPaths (adjacency g.edges) ((graphVerts g).card + 1) g.start_node [] ∅

/-- Response evaluation of `SessionService._evaluate_response`: per-type
strategy returning `(success, feedback, coins)`.  Python string truthiness
(`if bubble_node.expected_output and ...`) is modelled as "present and
non-empty". -/
def evaluate_response (bubble_node : BubbleNode) (response : String)
    (code_output : Option String) : Bool × String × Int :=
  match bubble_node.type with
  | BubbleType.concept =>
    if 0 < (pyStrip response).length then
      (true, "Great! You have reviewed the concept.", bubble_node.coin_reward)
    else
      (false, "Please acknowledge that you have read the concept.", 0)
  | BubbleType.quiz =>
    match bubble_node.expected_output with
    | some expected =>
      if expected ≠ "" ∧ pyLower (pyStrip response) = pyLower expected then
        (true, "Correct answer!", bubble_node.coin_reward)
      else
        (false, "That is not quite right. Try again!", 0)
    | none => (false, "That is not quite right. Try again!", 0)
  | BubbleType.task =>
    let minimum_effort :=
      if 10 < (pyStrip response).length then
        (true, "Good effort! Your solution has been submitted.", bubble_node.coin_reward)
      else
        (false, "Please provide a more complete solution.", 0)
    match bubble_node.expected_output, code_output with
    | some expected, some output =>
      if expected ≠ "" ∧ output ≠ "" then
        if pyStrip output = pyStrip expected then
          (true, "Perfect! Your code works correctly.", bubble_node.coin_reward)
        else
          (false, s!"Output does not match. Expected: {expected}, Got: {output}", 0)
      else minimum_effort
    | _, _ => minimum_effort
  | _ => (true, "Response recorded.", bubble_node.coin_reward)

/-- Progress advance of `SessionService.advance_bubble`.  Inputs are the
rows the method reads from the database: the `StudentState` row for the
`(student, session)` key, the graph stored on the session row, and the
`BubbleNode` lookup by `node_id`.  The returned pair is the student state
as committed plus the `BubbleAdvanceResponse`; the `raise ValueError`
branches become `Except.error`.  Python truthiness of `next_node_id`
(`if next_node_id:`) treats an empty-string id like `None`. -/
def advance_bubble (student_state_row : Option StudentState)
    (session_graph : Option BubbleGraph)
    (bubble_nodes : String → Option BubbleNode)
    (request : BubbleAdvanceRequest) (now : Nat) :
    Except AdvanceError (StudentState × BubbleAdvanceResponse) :=
  match student_state_row with
  | none => Except.error AdvanceError.studentStateNotFound
  | some student_state =>
    if student_state.is_completed then
      Except.ok (student_state,
        { success := false, next_node_id := none,
          feedback := "Session already completed", coins_earned := 0,
          is_session_complete := true, hints_available := [] })
    else
      match session_graph with
      | none => Except.error AdvanceError.sessionNotFound
      | some graph_data =>
        match bubble_nodes request.node_id with
        | none => Except.error (AdvanceError.nodeNotFound request.node_id)
        | some bubble_node =>
          let eval := evaluate_response bubble_node request.student_response request.code_output
          let time_spent := request.time_spent.getD 0
          let s1 : StudentState :=
            { student_state with
              last_activity_at := now,
              total_time_spent := student_state.total_time_spent + time_spent }
          if eval.1 then
            let s2 : StudentState :=
              if request.node_id ∈ s1.completed_nodes then s1
              else
                { s1 with
                  completed_nodes := s1.completed_nodes ++ [request.node_id],
                  total_coins := s1.total_coins + eval.2.2 }
            let next_nodes := get_next_nodes graph_data request.node_id
            let next_node_id := next_nodes.head?
            let s3 : StudentState :=
              match next_node_id with
              | some nid =>
                if nid ≠ "" then { s2 with current_node_id := some nid }
                else { s2 with is_completed := true, completed_at := some now }
              | none => { s2 with is_completed := true, completed_at := some now }
            let total_nodes := graph_data.nodes.length
            let completed_count := s3.completed_nodes.length
            let s4 : StudentState :=
              { s3 with completion_percentage := ((completed_count : ℚ) / (total_nodes : ℚ)) * 100 }
            Except.ok (s4,
              { success := true, next_node_id := next_node_id, feedback := eval.2.1,
                coins_earned := eval.2.2, is_session_complete := s4.is_completed,
                hints_available := [] })
          else
            let attempts := (dictGet s1.failed_attempts request.node_id).getD 0 + 1
            let s2 : StudentState :=
              { s1 with failed_attempts := dictSet s1.failed_attempts request.node_id attempts }
            let node_hints := bubble_node.hints.getD []
            let hints :=
              if node_hints ≠ [] ∧ attempts ≤ node_hints.length then
                [node_hints.getD (attempts - 1) ""]
              else []
            Except.ok (s2,
              { success := false, next_node_id := none, feedback := eval.2.1,
                coins_earned := 0, is_session_complete := false,
                hints_available := hints })

/-- Fresh progression record created by `SessionService.start_session`
when no resumable state exists: positioned at the start node with empty
progress. -/
def freshState (graph_data : BubbleGraph) (student_id session_id : Int)
    (now : Nat) : StudentState :=
  { student_id := student_id, session_id := session_id,
    current_node_id := some graph_data.start_node, completed_nodes := [],
    failed_attempts := [], total_coins := 0, is_completed := false,
    completion_percentage := 0, started_at := now, last_activity_at := now,
    completed_at := none, total_time_spent := 0 }

/-- Session start of `SessionService.start_session`.  The input is the
pre-existing `StudentState` row for the `(student, session)` key, if any.
The first component of the result is that pre-existing row as stored after
the call (modified only when resuming); the second is the state the method
returns: the resumed record when one exists and is not completed, a fresh
record otherwise. -/
def start_session (existing_state : Option StudentState)
    (graph_data : BubbleGraph) (student_id session_id : Int) (now : Nat) :
    Option StudentState × StudentState :=
  match existing_state with
  | some st =>
    if st.is_completed = false then
      let resumed := { st with last_activity_at := now }
      (some resumed, resumed)
    else
      (some st, freshState graph_data student_id session_id now)
  | none => (none, freshState graph_data student_id session_id now)

/-- States of one `(student, session)` key reachable through the service:
created by `start_session`, touched by a resume, or produced by any
completed `advance_bubble` call. -/
inductive ReachableState (graph_data : BubbleGraph)
    (bubble_nodes : String → Option BubbleNode) : StudentState → Prop where
  | start : ∀ (student_id session_id : Int) (now : Nat),
      ReachableState graph_data bubble_nodes (freshState graph_data student_id session_id now)
  | resume : ∀ (s : StudentState) (now : Nat),
      ReachableState graph_data bubble_nodes s → s.is_completed = false →
      ReachableState graph_data bubble_nodes { s with last_activity_at := now }
  | advance : ∀ (s : StudentState) (request : BubbleAdvanceRequest) (now : Nat)
      (s2 : StudentState) (resp : BubbleAdvanceResponse),
      ReachableState graph_data bubble_nodes s →
      advance_bubble (some s) (some graph_data) bubble_nodes request now = Except.ok (s2, resp) →
      ReachableState graph_data bubble_nodes s2

/-- Response of the `AlreadyCompleted` early exit of `advance_bubble`
(proof-layer name for the literal record). -/
def alreadyCompletedResponse : BubbleAdvanceResponse :=
  { success := false, next_node_id := none,
    feedback := "Session already completed", coins_earned := 0,
    is_session_complete := true, hints_available := [] }

/-- Proof-layer regrouping of the `advance_bubble` body that runs once the
student state, session and bubble node have been resolved; the lemma
`advance_bubble_eq_core` below proves `advance_bubble` equal to it, and the
per-claim lemmas reason about this form. -/
def advanceCore (graph_data : BubbleGraph) (bubble_node : BubbleNode)
    (request : BubbleAdvanceRequest) (now : Nat) (student_state : StudentState) :
    StudentState × BubbleAdvanceResponse :=
  let eval := evaluate_response bubble_node request.student_response request.code_output
  let time_spent := request.time_spent.getD 0
  let s1 : StudentState :=
    { student_state with
      last_activity_at := now,
      total_time_spent := student_state.total_time_spent + time_spent }
  if eval.1 then
    let s2 : StudentState :=
      if request.node_id ∈ s1.completed_nodes then s1
      else
        { s1 with
          completed_nodes := s1.completed_nodes ++ [request.node_id],
          total_coins := s1.total_coins + eval.2.2 }
    let next_nodes := get_next_nodes graph_data request.node_id
    let next_node_id := next_nodes.head?
    let s3 : StudentState :=
      match next_node_id with
      | some nid =>
        if nid ≠ "" then { s2 with current_node_id := some nid }
        else { s2 with is_completed := true, completed_at := some now }
      | none => { s2 with is_completed := true, completed_at := some now }
    let total_nodes := graph_data.nodes.length
    let completed_count := s3.completed_nodes.length
    let s4 : StudentState :=
      { s3 with completion_percentage := ((completed_count : ℚ) / (total_nodes : ℚ)) * 100 }
    (s4, { success := true, next_node_id := next_node_id, feedback := eval.2.1,
           coins_earned := eval.2.2, is_session_complete := s4.is_completed,
           hints_available := [] })
  else
    let attempts := (dictGet s1.failed_attempts request.node_id).getD 0 + 1
    let s2 : StudentState :=
      { s1 with failed_attempts := dictSet s1.failed_attempts request.node_id attempts }
    let node_hints := bubble_node.hints.getD []
    let hints :=
      if node_hints ≠ [] ∧ attempts ≤ node_hints.length then
        [node_hints.getD (attempts - 1) ""]
      else []
    (s2, { success := false, next_node_id := none, feedback := eval.2.1,
           coins_earned := 0, is_session_complete := false,
           hints_available := hints })

/-! Concrete instances used by witnesses and counterexamples. -/

/-- Concept-typed schema node with a fixed title, for building small test
graphs. -/
def sampleNode (i : String) : BubbleNodeSchema :=
  { id := i, type := BubbleType.concept, title := "Title" }

/-- Edge constructor shorthand for small test graphs. -/
def sampleEdge (a b : String) : GraphEdge :=
  { from_node := a, to_node := b }

/-- Linear three-node graph `s → t1 → fin`. -/
def sampleGraph : BubbleGraph :=
  { start_node := "s",
    nodes := [sampleNode "s", sampleNode "t1", sampleNode "fin"],
    edges := [sampleEdge "s" "t1", sampleEdge "t1" "fin"] }

/-- Three-node ring `a → b → c → a`. -/
def ringGraph : BubbleGraph :=
  { start_node := "a",
    nodes := [sampleNode "a", sampleNode "b", sampleNode "c"],
    edges := [sampleEdge "a" "b", sampleEdge "b" "c", sampleEdge "c" "a"] }

/-- Graph with a two-node cycle `x ↔ y` in a component not reachable from
the start node `s`. -/
def discGraph : BubbleGraph :=
  { start_node := "s",
    nodes := [sampleNode "s", sampleNode "x", sampleNode "y"],
    edges := [sampleEdge "x" "y", sampleEdge "y" "x"] }

/-- Concept bubble row worth 5 coins. -/
def conceptBubble : BubbleNode :=
  { node_id := "s", type := BubbleType.concept, title := "Concept",
    expected_output := none, hints := none, coin_reward := 5 }

/-- Task bubble row with exactly one configured hint. -/
def taskBubble : BubbleNode :=
  { node_id := "t1", type := BubbleType.task, title := "Task",
    expected_output := none, hints := some ["hint one"], coin_reward := 7 }

/-- Demo bubble row worth 10 coins. -/
def demoBubble : BubbleNode :=
  { node_id := "fin", type := BubbleType.demo, title := "Demo",
    expected_output := none, hints := none, coin_reward := 10 }

/-- Bubble-row lookup for `sampleGraph`. -/
def sampleBubbles : String → Option BubbleNode := fun n =>
  if n = "s" then some conceptBubble
  else if n = "t1" then some taskBubble
  else if n = "fin" then some demoBubble
  else none

/-- Acknowledgment request on the concept bubble `s`. -/
def understandReq : BubbleAdvanceRequest :=
  { node_id := "s", student_response := "I understand", code_output := none,
    time_spent := none }

/-- Empty-response request on the task bubble `t1`. -/
def emptyTaskReq : BubbleAdvanceRequest :=
  { node_id := "t1", student_response := "", code_output := none,
    time_spent := none }

/-- Acknowledgment request on the terminal demo bubble `fin`. -/
def finReq : BubbleAdvanceRequest :=
  { node_id := "fin", student_response := "ok", code_output := none,
    time_spent := none }

/-- Request naming a node id absent from `sampleBubbles`. -/
def missingReq : BubbleAdvanceRequest :=
  { node_id := "ghost", student_response := "ok", code_output := none,
    time_spent := none }

/-- State of the sample student after successfully advancing the concept
bubble `s` from a fresh state (checked against `advance_bubble` in the
witness proofs). -/
def stateAfterOne : StudentState :=
  { student_id := 1, session_id := 2, current_node_id := some "t1",
    completed_nodes := ["s"], failed_attempts := [], total_coins := 5,
    is_completed := false,
    completion_percentage := ((1 : ℕ) : ℚ) / ((3 : ℕ) : ℚ) * 100,
    started_at := 0,
    last_activity_at := 1, completed_at := none, total_time_spent := 0 }

/-- Response accompanying `stateAfterOne`. -/
def respAfterOne : BubbleAdvanceResponse :=
  { success := true, next_node_id := some "t1",
    feedback := "Great! You have reviewed the concept.", coins_earned := 5,
    is_session_complete := false, hints_available := [] }

/-- State after repeating the successful advance on the already-completed
concept bubble `s` at time 2: only `last_activity_at` moves. -/
def stateAfterTwo : StudentState :=
  { stateAfterOne with last_activity_at := 2 }

/-- State after one failed attempt on the task bubble `t1` from a fresh
state. -/
def failState1 : StudentState :=
  { freshState sampleGraph 1 2 0 with
    failed_attempts := [("t1", 1)],
    last_activity_at := 1 }

/-- Response accompanying `failState1`: first failure returns the single
configured hint. -/
def failResp1 : BubbleAdvanceResponse :=
  { success := false, next_node_id := none,
    feedback := "Please provide a more complete solution.", coins_earned := 0,
    is_session_complete := false, hints_available := ["hint one"] }

/-- State after a second failed attempt on the task bubble `t1`. -/
def failState2 : StudentState :=
  { freshState sampleGraph 1 2 0 with
    failed_attempts := [("t1", 2)],
    last_activity_at := 2 }

/-- Response accompanying `failState2`: the second failure on a node with
a single configured hint returns no hint. -/
def failResp2 : BubbleAdvanceResponse :=
  { success := false, next_node_id := none,
    feedback := "Please provide a more complete solution.", coins_earned := 0,
    is_session_complete := false, hints_available := [] }

/-- State after successfully advancing the terminal demo bubble `fin`
directly from a fresh state: the session completes while
`current_node_id` still holds the start node. -/
def finState : StudentState :=
  { student_id := 1, session_id := 2, current_node_id := some "s",
    completed_nodes := ["fin"], failed_attempts := [], total_coins := 10,
    is_completed := true,
    completion_percentage := ((1 : ℕ) : ℚ) / ((3 : ℕ) : ℚ) * 100,
    started_at := 0,
    last_activity_at := 3, completed_at := some 3, total_time_spent := 0 }

/-- Response accompanying `finState`. -/
def finResp : BubbleAdvanceResponse :=
  { success := true, next_node_id := none, feedback := "Response recorded.",
    coins_earned := 10, is_session_complete := true, hints_available := [] }

/-- Completed sample state (terminal). -/
def completedState : StudentState :=
  { freshState sampleGraph 1 2 0 with
    is_completed := true,
    completed_at := some 9 }

/-! Helper lemmas shared by the claim theorems. -/

/-- Helper: a string is non-empty exactly when its length is positive
(connects the `len(response.strip()) > 0` test with the specification
phrase "non-empty after trimming"). -/
theorem length_pos_iff_ne_empty (s : String) : 0 < s.length ↔ s ≠ "" := by
  constructor
  · intro h he
    subst he
    simp at h
  · intro h
    cases hs : s.data with
    | nil => exact absurd (String.ext hs) h
    | cons a l =>
      have hl : s.length = s.data.length := rfl
      rw [hl, hs]
      simp

/-- Helper: overwriting an existing key makes the overwritten entry the
first match. -/
theorem find_map_overwrite (d : List (String × Nat)) (k : String) (v : Nat)
    (h : (d.find? (fun p => p.1 = k)).isSome = true) :
    (d.map (fun p => if p.1 = k then (k, v) else p)).find? (fun p => p.1 = k) =
      some (k, v) := by
  induction d with
  | nil => simp at h
  | cons hd tl ih =>
    by_cases hk : hd.1 = k
    · rw [List.map_cons, if_pos hk, List.find?_cons_of_pos _ (by simp)]
    · rw [List.find?_cons_of_neg _ (by simp [hk])] at h
      rw [List.map_cons, if_neg hk, List.find?_cons_of_neg _ (by simp [hk])]
      exact ih h

/-- Helper: after the dictionary write `d[k] = v`, reading `k` yields
`v`. -/
theorem dictGet_dictSet_self (d : List (String × Nat)) (k : String) (v : Nat) :
    dictGet (dictSet d k v) k = some v := by
  unfold dictGet dictSet
  by_cases h : ((d.find? (fun p => p.1 = k)).isSome : Prop)
  · rw [if_pos h, find_map_overwrite d k v h]
    rfl
  · rw [if_neg h]
    have hnone : d.find? (fun p => p.1 = k) = none :=
      Option.not_isSome_iff_eq_none.mp (by simpa using h)
    rw [List.find?_append, hnone]
    simp

/-- Helper: once the state, session and bubble are resolved and the state
is not completed, `advance_bubble` is the resolved core update. -/
theorem advance_bubble_eq_core (s : StudentState) (g : BubbleGraph)
    (bn : String → Option BubbleNode) (req : BubbleAdvanceRequest) (now : Nat)
    (bubble : BubbleNode) (hc : s.is_completed = false)
    (hb : bn req.node_id = some bubble) :
    advance_bubble (some s) (some g) bn req now =
      Except.ok (advanceCore g bubble req now s) := by
  by_cases he : (evaluate_response bubble req.student_response req.code_output).1 = true
  · simp [advance_bubble, advanceCore, hb, hc, he]
  · simp [advance_bubble, advanceCore, hb, hc, he]

/-- Helper: on an already-completed state, `advance_bubble` exits early
with the unchanged state and the `AlreadyCompleted` response. -/
theorem advance_bubble_completed_exit (s : StudentState) (g : BubbleGraph)
    (bn : String → Option BubbleNode) (req : BubbleAdvanceRequest) (now : Nat)
    (hc : s.is_completed = true) :
    advance_bubble (some s) (some g) bn req now =
      Except.ok (s, alreadyCompletedResponse) := by
  simp only [advance_bubble, alreadyCompletedResponse, hc, if_true]

/-- Helper: every `Except.ok` outcome of `advance_bubble` is either the
early `AlreadyCompleted` exit or the resolved core update. -/
theorem advance_bubble_ok_cases (s : StudentState) (g : BubbleGraph)
    (bn : String → Option BubbleNode) (req : BubbleAdvanceRequest) (now : Nat)
    (s2 : StudentState) (resp : BubbleAdvanceResponse)
    (h : advance_bubble (some s) (some g) bn req now = Except.ok (s2, resp)) :
    (s.is_completed = true ∧ s2 = s ∧ resp = alreadyCompletedResponse) ∨
      (s.is_completed = false ∧ ∃ bubble, bn req.node_id = some bubble ∧
        (s2, resp) = advanceCore g bubble req now s) := by
  cases hc : s.is_completed with
  | true =>
    left
    rw [advance_bubble_completed_exit s g bn req now hc] at h
    simp only [Except.ok.injEq, Prod.mk.injEq] at h
    exact ⟨rfl, h.1.symm, h.2.symm⟩
  | false =>
    right
    cases hbn : bn req.node_id with
    | none =>
      simp only [advance_bubble, hbn, hc, Bool.false_eq_true, if_false] at h
      exact Except.noConfusion h
    | some bubble =>
      rw [advance_bubble_eq_core s g bn req now bubble hc hbn] at h
      simp only [Except.ok.injEq] at h
      exact ⟨rfl, bubble, rfl, h.symm⟩

/-- Helper: the coins reported by an evaluation are the bubble reward or
zero. -/
theorem evaluate_response_coins (b : BubbleNode) (response : String)
    (co : Option String) :
    (evaluate_response b response co).2.2 = b.coin_reward ∨
      (evaluate_response b response co).2.2 = 0 := by
  unfold evaluate_response
  rcases b.type <;> rcases b.expected_output with _ | e <;> rcases co with _ | c <;>
    repeat' split
  all_goals simp

/-- Helper: field-level description of the success branch of the advance
core: the response succeeds, the node enters `completed_nodes` only when
absent, coins grow only on first completion, the percentage is recomputed
from the updated set, the current node either stays or moves to a non-empty
successor id, and with no successor the session completes with the current
node untouched. -/
theorem advanceCore_success_fields (g : BubbleGraph) (bubble : BubbleNode)
    (req : BubbleAdvanceRequest) (now : Nat) (s : StudentState)
    (he : (evaluate_response bubble req.student_response req.code_output).1 = true) :
    (advanceCore g bubble req now s).2.success = true ∧
    (advanceCore g bubble req now s).1.completed_nodes =
      (if req.node_id ∈ s.completed_nodes then s.completed_nodes
       else s.completed_nodes ++ [req.node_id]) ∧
    (advanceCore g bubble req now s).1.total_coins =
      (if req.node_id ∈ s.completed_nodes then s.total_coins
       else s.total_coins +
         (evaluate_response bubble req.student_response req.code_output).2.2) ∧
    (advanceCore g bubble req now s).1.completion_percentage =
      (((advanceCore g bubble req now s).1.completed_nodes.length : ℚ) /
        (g.nodes.length : ℚ)) * 100 ∧
    ((advanceCore g bubble req now s).1.current_node_id = s.current_node_id ∨
      ∃ nid, nid ≠ "" ∧ (advanceCore g bubble req now s).1.current_node_id = some nid) ∧
    ((get_next_nodes g req.node_id).head? = none →
      (advanceCore g bubble req now s).1.current_node_id = s.current_node_id ∧
        (advanceCore g bubble req now s).1.is_completed = true) := by
  unfold advanceCore
  by_cases hm : req.node_id ∈ s.completed_nodes
  · cases hnn : (get_next_nodes g req.node_id).head? with
    | none => simp [he, hm, hnn]
    | some nid =>
      by_cases hnid : nid = ""
      · simp [he, hm, hnn, hnid]
      · simp [he, hm, hnn, hnid]
  · cases hnn : (get_next_nodes g req.node_id).head? with
    | none => simp [he, hm, hnn]
    | some nid =>
      by_cases hnid : nid = ""
      · simp [he, hm, hnn, hnid]
      · simp [he, hm, hnn, hnid]

/-- Helper: field-level description of the failure branch of the advance
core: the attempt counter for the node is written with its incremented
value, the hint list is the singleton indexed by the new attempt count when
that count is within the configured hints and empty otherwise, and every
other progress field is untouched. -/
theorem advanceCore_failure_fields (g : BubbleGraph) (bubble : BubbleNode)
    (req : BubbleAdvanceRequest) (now : Nat) (s : StudentState)
    (he : (evaluate_response bubble req.student_response req.code_output).1 = false) :
    (advanceCore g bubble req now s).2.success = false ∧
    (advanceCore g bubble req now s).1.completed_nodes = s.completed_nodes ∧
    (advanceCore g bubble req now s).1.total_coins = s.total_coins ∧
    (advanceCore g bubble req now s).1.completion_percentage = s.completion_percentage ∧
    (advanceCore g bubble req now s).1.current_node_id = s.current_node_id ∧
    (advanceCore g bubble req now s).1.is_completed = s.is_completed ∧
    (advanceCore g bubble req now s).1.failed_attempts =
      dictSet s.failed_attempts req.node_id
        ((dictGet s.failed_attempts req.node_id).getD 0 + 1) ∧
    (advanceCore g bubble req now s).2.hints_available =
      (if bubble.hints.getD [] ≠ [] ∧
          (dictGet s.failed_attempts req.node_id).getD 0 + 1 ≤ (bubble.hints.getD []).length then
        [(bubble.hints.getD []).getD ((dictGet s.failed_attempts req.node_id).getD 0 + 1 - 1) ""]
      else []) := by
  unfold advanceCore
  simp [he]

/-- Helper: the completion-percentage invariant holds on every reachable
state — the stored `completion_percentage` is exactly
`100 * |completed_nodes| / |nodes|` (as an exact rational). -/
theorem percentage_invariant (g : BubbleGraph) (bn : String → Option BubbleNode)
    (s : StudentState) (hreach : ReachableState g bn s) :
    s.completion_percentage = 100 * (s.completed_nodes.length : ℚ) / (g.nodes.length : ℚ) := by
  induction hreach with
  | start sid ssid now => simp [freshState]
  | resume s now h hnc ih => simpa using ih
  | advance s req now s2 resp h hadv ih =>
    rcases advance_bubble_ok_cases s g bn req now s2 resp hadv with
      ⟨hc, hs2, hresp⟩ | ⟨hc, bubble, hbn, heq⟩
    · rw [hs2]; exact ih
    · have hs2 : s2 = (advanceCore g bubble req now s).1 := by rw [← heq]
      cases he : (evaluate_response bubble req.student_response req.code_output).1 with
      | false =>
        obtain ⟨-, hcn, -, hcp, -⟩ := advanceCore_failure_fields g bubble req now s he
        rw [hs2, hcp, hcn]
        exact ih
      | true =>
        obtain ⟨-, -, -, hcp, -⟩ := advanceCore_success_fields g bubble req now s he
        rw [hs2, hcp]
        ring

/-- C2: for every state created by `start_session` and evolved by any
sequence of `advance_bubble` calls (successful or failed), the stored
`completion_percentage` equals `100 * |completed_nodes| / |nodes of the
graph|` exactly. -/
theorem c2_completion_percentage (g : BubbleGraph) (bn : String → Option BubbleNode)
    (s : StudentState) (hreach : ReachableState g bn s) :
    s.completion_percentage = 100 * (s.completed_nodes.length : ℚ) / (g.nodes.length : ℚ) :=
  percentage_invariant g bn s hreach

/-- C2 witness: the invariant instantiated at the fresh state of the
sample graph. -/
theorem c2_completion_percentage_witness :
    (freshState sampleGraph 1 2 0).completion_percentage =
      100 * (((freshState sampleGraph 1 2 0).completed_nodes.length : ℚ)) /
        ((sampleGraph.nodes.length : ℚ)) :=
  c2_completion_percentage sampleGraph sampleBubbles (freshState sampleGraph 1 2 0)
    (ReachableState.start 1 2 0)

/-- C1: a successful advance on an already-completed node changes neither
`total_coins` nor `completion_percentage`; across any advance the coins
never decrease (given the non-negative rewards the creation schema
enforces), and they change only when the node first enters
`completed_nodes`. -/
theorem c1_idempotent_completion (g : BubbleGraph) (bn : String → Option BubbleNode)
    (s : StudentState) (req : BubbleAdvanceRequest) (now : Nat)
    (s2 : StudentState) (resp : BubbleAdvanceResponse)
    (hreach : ReachableState g bn s)
    (hadv : advance_bubble (some s) (some g) bn req now = Except.ok (s2, resp))
    (hrew : ∀ node b, bn node = some b → 0 ≤ b.coin_reward) :
    (resp.success = true → req.node_id ∈ s.completed_nodes →
      s2.total_coins = s.total_coins ∧
        s2.completion_percentage = s.completion_percentage) ∧
    s.total_coins ≤ s2.total_coins ∧
    (s2.total_coins ≠ s.total_coins →
      req.node_id ∉ s.completed_nodes ∧ req.node_id ∈ s2.completed_nodes) := by
  rcases advance_bubble_ok_cases s g bn req now s2 resp hadv with
    ⟨hc, hs2, hresp⟩ | ⟨hc, bubble, hbn, heq⟩
  · subst hs2
    exact ⟨fun _ _ => ⟨rfl, rfl⟩, le_refl _, fun hne => absurd rfl hne⟩
  · have hs2 : s2 = (advanceCore g bubble req now s).1 := by rw [← heq]
    have hresp : resp = (advanceCore g bubble req now s).2 := by rw [← heq]
    cases he : (evaluate_response bubble req.student_response req.code_output).1 with
    | false =>
      obtain ⟨hsf, -, hco, hcp, -⟩ := advanceCore_failure_fields g bubble req now s he
      rw [hs2, hco]
      exact ⟨fun _ _ => ⟨rfl, by rw [hcp]⟩, le_refl _, fun hne => absurd rfl hne⟩
    | true =>
      obtain ⟨hsucc, hcn, hco, hcp, -⟩ := advanceCore_success_fields g bubble req now s he
      by_cases hm : req.node_id ∈ s.completed_nodes
      · rw [if_pos hm] at hcn hco
        have hp2 : s2.completion_percentage = s.completion_percentage := by
          rw [hs2, hcp, hcn, percentage_invariant g bn s hreach]
          ring
        have hc2 : s2.total_coins = s.total_coins := by rw [hs2, hco]
        exact ⟨fun _ _ => ⟨hc2, hp2⟩, le_of_eq hc2.symm, fun hne => absurd hc2 hne⟩
      · rw [if_neg hm] at hcn hco
        have hcoin : 0 ≤ (evaluate_response bubble req.student_response req.code_output).2.2 := by
          rcases evaluate_response_coins bubble req.student_response req.code_output with
            h0 | h0
          · rw [h0]
            exact hrew req.node_id bubble hbn
          · rw [h0]
        refine ⟨fun _ hmem => absurd hmem hm, ?_, fun _ => ⟨hm, ?_⟩⟩
        · rw [hs2, hco]
          exact le_add_of_nonneg_right hcoin
        · rw [hs2, hcn]
          simp

/-- Helper: every bubble row served by `sampleBubbles` has a non-negative
coin reward. -/
theorem sampleBubbles_reward_nonneg :
    ∀ node b, sampleBubbles node = some b → 0 ≤ b.coin_reward := by
  intro node b hb
  unfold sampleBubbles at hb
  split_ifs at hb <;> cases hb <;> decide

/-- C1 witness: repeating the successful advance on the already-completed
concept bubble `s` leaves coins and percentage unchanged. -/
theorem c1_idempotent_completion_witness :
    (respAfterOne.success = true → "s" ∈ stateAfterOne.completed_nodes →
      stateAfterTwo.total_coins = stateAfterOne.total_coins ∧
        stateAfterTwo.completion_percentage = stateAfterOne.completion_percentage) ∧
    stateAfterOne.total_coins ≤ stateAfterTwo.total_coins ∧
    (stateAfterTwo.total_coins ≠ stateAfterOne.total_coins →
      "s" ∉ stateAfterOne.completed_nodes ∧ "s" ∈ stateAfterTwo.completed_nodes) :=
  c1_idempotent_completion sampleGraph sampleBubbles stateAfterOne understandReq 2
    stateAfterTwo respAfterOne
    (ReachableState.advance (freshState sampleGraph 1 2 0) understandReq 1
      stateAfterOne respAfterOne (ReachableState.start 1 2 0) (by rfl))
    (by rfl) sampleBubbles_reward_nonneg

/-- C3 (amended): a Concept bubble evaluates successful exactly when the
stripped response is non-empty, but Demo and Summary bubbles fall into the
default evaluation case and succeed for every response, including the
empty one. -/
theorem c3_acknowledgment (b : BubbleNode) (response : String)
    (co : Option String) :
    (b.type = BubbleType.concept →
      ((evaluate_response b response co).1 = true ↔ pyStrip response ≠ "")) ∧
    (b.type = BubbleType.demo ∨ b.type = BubbleType.summary →
      (evaluate_response b response co).1 = true) := by
  cases hb : b.type with
  | concept =>
    refine ⟨fun _ => ?_, fun h => by simp at h⟩
    unfold evaluate_response
    rw [hb]
    by_cases hp : 0 < (pyStrip response).length
    · simp [hp, (length_pos_iff_ne_empty (pyStrip response)).mp hp]
    · have : pyStrip response = "" := by
        by_contra hne
        exact hp ((length_pos_iff_ne_empty (pyStrip response)).mpr hne)
      simp [hp, this]
  | demo => exact ⟨fun h => by simp at h, fun _ => by simp [evaluate_response, hb]⟩
  | summary => exact ⟨fun h => by simp at h, fun _ => by simp [evaluate_response, hb]⟩
  | task => exact ⟨fun h => by simp at h, fun h => by rcases h <;> simp_all⟩
  | quiz => exact ⟨fun h => by simp at h, fun h => by rcases h <;> simp_all⟩

/-- C3 counterexample: the empty response on a Demo bubble strips to the
empty string yet evaluates successful, refuting "success iff the response
is non-empty after trimming" for Demo bubbles. -/
theorem c3_counterexample :
    demoBubble.type = BubbleType.demo ∧ pyStrip "" = "" ∧
      (evaluate_response demoBubble "" none).1 = true :=
  ⟨rfl, rfl, rfl⟩

/-- C3 witness: the amended claim instantiated on a Concept bubble with a
real acknowledgment and on the Demo bubble. -/
theorem c3_acknowledgment_witness :
    ((evaluate_response conceptBubble "I understand" none).1 = true ↔
      pyStrip "I understand" ≠ "") ∧
    (evaluate_response demoBubble "" none).1 = true :=
  ⟨(c3_acknowledgment conceptBubble "I understand" none).1 rfl,
    (c3_acknowledgment demoBubble "" none).2 (Or.inl rfl)⟩

/-- C4 (amended): on a failed evaluation the per-node attempt counter is
incremented by exactly one (from zero when absent); a hint — the one
indexed by the new attempt count — is returned exactly while that count is
at most the number of configured hints, and no hint is returned beyond
that; completed nodes, coins, percentage and current node are untouched. -/
theorem c4_failure_bookkeeping (g : BubbleGraph) (bn : String → Option BubbleNode)
    (s : StudentState) (req : BubbleAdvanceRequest) (now : Nat)
    (s2 : StudentState) (resp : BubbleAdvanceResponse) (bubble : BubbleNode)
    (hc : s.is_completed = false)
    (hbn : bn req.node_id = some bubble)
    (hadv : advance_bubble (some s) (some g) bn req now = Except.ok (s2, resp))
    (he : (evaluate_response bubble req.student_response req.code_output).1 = false) :
    dictGet s2.failed_attempts req.node_id =
      some ((dictGet s.failed_attempts req.node_id).getD 0 + 1) ∧
    ((dictGet s.failed_attempts req.node_id).getD 0 + 1 ≤ (bubble.hints.getD []).length →
      resp.hints_available =
        [(bubble.hints.getD []).getD ((dictGet s.failed_attempts req.node_id).getD 0 + 1 - 1) ""]) ∧
    ((bubble.hints.getD []).length < (dictGet s.failed_attempts req.node_id).getD 0 + 1 →
      resp.hints_available = []) ∧
    s2.completed_nodes = s.completed_nodes ∧
    s2.total_coins = s.total_coins ∧
    s2.completion_percentage = s.completion_percentage ∧
    s2.current_node_id = s.current_node_id := by
  rw [advance_bubble_eq_core s g bn req now bubble hc hbn] at hadv
  simp only [Except.ok.injEq] at hadv
  have hs2 : s2 = (advanceCore g bubble req now s).1 := by rw [hadv]
  have hresp : resp = (advanceCore g bubble req now s).2 := by rw [hadv]
  obtain ⟨-, hcn, hco, hcp, hcur, -, hfa, hh⟩ :=
    advanceCore_failure_fields g bubble req now s he
  refine ⟨?_, ?_, ?_, by rw [hs2, hcn], by rw [hs2, hco], by rw [hs2, hcp],
    by rw [hs2, hcur]⟩
  · rw [hs2, hfa, dictGet_dictSet_self]
  · intro hle
    have hne : bubble.hints.getD [] ≠ [] := by
      intro hnil
      rw [hnil] at hle
      simp at hle
    rw [hresp, hh, if_pos ⟨hne, hle⟩]
  · intro hlt
    rw [hresp, hh, if_neg]
    rintro ⟨-, hle⟩
    exact absurd hle (not_le.mpr hlt)

/-- C4 counterexample: from a fresh state, two consecutive empty-response
failures on the task bubble `t1`, which has exactly one configured hint:
the second failure returns no hint at all, refuting "for every attempt
count, at least one hint is returned when the node has ≥ 1 hint". -/
theorem c4_counterexample :
    advance_bubble (some (freshState sampleGraph 1 2 0)) (some sampleGraph)
      sampleBubbles emptyTaskReq 1 = Except.ok (failState1, failResp1) ∧
    advance_bubble (some failState1) (some sampleGraph) sampleBubbles
      emptyTaskReq 2 = Except.ok (failState2, failResp2) ∧
    taskBubble.hints = some ["hint one"] ∧
    failResp2.success = false ∧ failResp2.hints_available = [] :=
  ⟨rfl, rfl, rfl, rfl, rfl⟩

/-- C4 witness: the amended bookkeeping instantiated on the first failed
attempt of the sample task bubble. -/
theorem c4_failure_bookkeeping_witness :
    dictGet failState1.failed_attempts "t1" =
      some ((dictGet (freshState sampleGraph 1 2 0).failed_attempts "t1").getD 0 + 1) ∧
    failResp1.hints_available = ["hint one"] ∧
    failState1.completed_nodes = (freshState sampleGraph 1 2 0).completed_nodes ∧
    failState1.total_coins = (freshState sampleGraph 1 2 0).total_coins := by
  obtain ⟨h1, h2, -, h4, h5, -⟩ :=
    c4_failure_bookkeeping sampleGraph sampleBubbles (freshState sampleGraph 1 2 0)
      emptyTaskReq 1 failState1 failResp1 taskBubble rfl rfl (by rfl) rfl
  exact ⟨h1, h2 (by decide), h4, h5⟩

/-- C7 (amended): when `node_id` resolves to no bubble of the session, the
code raises `ValueError` — the advance ends with an escaping exception
(`Except.error (nodeNotFound node_id)`) rather than returning a typed
`BubbleAdvanceResponse`; of the domain failures only `AlreadyCompleted` is
returned as a typed result. -/
theorem c7_node_not_found_raises (s : StudentState) (g : BubbleGraph)
    (bn : String → Option BubbleNode) (req : BubbleAdvanceRequest) (now : Nat)
    (hc : s.is_completed = false) (hbn : bn req.node_id = none) :
    advance_bubble (some s) (some g) bn req now =
      Except.error (AdvanceError.nodeNotFound req.node_id) := by
  simp only [advance_bubble, hbn, hc, Bool.false_eq_true, if_false]

/-- C7 counterexample: advancing an unknown node id on the sample session
produces the raised-exception outcome, not an `Except.ok` carrying a typed
failure response. -/
theorem c7_counterexample :
    advance_bubble (some (freshState sampleGraph 1 2 0)) (some sampleGraph)
      sampleBubbles missingReq 1 =
      Except.error (AdvanceError.nodeNotFound "ghost") :=
  rfl

/-- C7 witness: the amended raise behaviour instantiated on the sample
session. -/
theorem c7_node_not_found_raises_witness :
    advance_bubble (some (freshState sampleGraph 1 2 0)) (some sampleGraph)
      sampleBubbles missingReq 1 =
      Except.error (AdvanceError.nodeNotFound missingReq.node_id) :=
  c7_node_not_found_raises (freshState sampleGraph 1 2 0) sampleGraph
    sampleBubbles missingReq 1 rfl rfl

/-- C8: a completed state is terminal — `advance_bubble` returns the
failure response with the state unchanged, and `start_session` leaves the
stored completed record untouched, handing out a fresh state instead. -/
theorem c8_terminal_immutable (s : StudentState) (g : BubbleGraph)
    (bn : String → Option BubbleNode) (req : BubbleAdvanceRequest)
    (now : Nat) (student_id session_id : Int) (now2 : Nat)
    (hc : s.is_completed = true) :
    advance_bubble (some s) (some g) bn req now =
      Except.ok (s, alreadyCompletedResponse) ∧
    alreadyCompletedResponse.success = false ∧
    (start_session (some s) g student_id session_id now2).1 = some s ∧
    (start_session (some s) g student_id session_id now2).2 =
      freshState g student_id session_id now2 := by
  refine ⟨advance_bubble_completed_exit s g bn req now hc, rfl, ?_, ?_⟩ <;>
    simp [start_session, hc]

/-- C8 witness: terminal immutability instantiated on the completed sample
state. -/
theorem c8_terminal_immutable_witness :
    advance_bubble (some completedState) (some sampleGraph) sampleBubbles
      understandReq 4 = Except.ok (completedState, alreadyCompletedResponse) ∧
    (start_session (some completedState) sampleGraph 1 2 7).1 = some completedState :=
  ⟨(c8_terminal_immutable completedState sampleGraph sampleBubbles understandReq
      4 1 2 7 rfl).1,
    (c8_terminal_immutable completedState sampleGraph sampleBubbles understandReq
      4 1 2 7 rfl).2.2.1⟩

/-- C10 (amended): every state reachable through the service keeps a
non-null `current_node_id`, including the terminal state: the completing
advance (successful evaluation of a node with no outgoing edges) leaves
`current_node_id` at its previous value rather than clearing it — which is
the node just completed only when that node was the current one. -/
theorem c10_current_node_retention (g : BubbleGraph)
    (bn : String → Option BubbleNode) :
    (∀ s, ReachableState g bn s → s.current_node_id ≠ none) ∧
    (∀ s req now s2 resp,
      advance_bubble (some s) (some g) bn req now = Except.ok (s2, resp) →
      resp.success = true → get_next_nodes g req.node_id = [] →
      s2.current_node_id = s.current_node_id ∧ s2.is_completed = true) := by
  constructor
  · intro s hreach
    induction hreach with
    | start sid ssid now2 => simp [freshState]
    | resume s now2 h hnc ih => simpa using ih
    | advance s req now2 s2 resp h hadv ih =>
      rcases advance_bubble_ok_cases s g bn req now2 s2 resp hadv with
        ⟨hc, hs2, hresp⟩ | ⟨hc, bubble, hbn, heq⟩
      · rw [hs2]; exact ih
      · have hs2 : s2 = (advanceCore g bubble req now2 s).1 := by rw [← heq]
        cases he : (evaluate_response bubble req.student_response req.code_output).1 with
        | false =>
          obtain ⟨-, -, -, -, hcur, -⟩ := advanceCore_failure_fields g bubble req now2 s he
          rw [hs2, hcur]; exact ih
        | true =>
          obtain ⟨-, -, -, -, hcur, -⟩ := advanceCore_success_fields g bubble req now2 s he
          rcases hcur with hsame | ⟨nid, hnid, hsome⟩
          · rw [hs2, hsame]; exact ih
          · rw [hs2, hsome]; simp
  · intro s req now s2 resp hadv hsucc hnone
    rcases advance_bubble_ok_cases s g bn req now s2 resp hadv with
      ⟨hc, hs2, hresp⟩ | ⟨hc, bubble, hbn, heq⟩
    · rw [hresp] at hsucc
      exact absurd hsucc (by simp [alreadyCompletedResponse])
    · have hs2 : s2 = (advanceCore g bubble req now s).1 := by rw [← heq]
      have hresp : resp = (advanceCore g bubble req now s).2 := by rw [← heq]
      cases he : (evaluate_response bubble req.student_response req.code_output).1 with
      | false =>
        obtain ⟨hsf, -⟩ := advanceCore_failure_fields g bubble req now s he
        rw [hresp, hsf] at hsucc
        simp at hsucc
      | true =>
        obtain ⟨-, -, -, -, -, hterm⟩ := advanceCore_success_fields g bubble req now s he
        have hh : (get_next_nodes g req.node_id).head? = none := by rw [hnone]; rfl
        obtain ⟨h1, h2⟩ := hterm hh
        rw [hs2]
        exact ⟨h1, h2⟩

/-- C10 counterexample: advancing the terminal demo bubble `fin` while the
current node is still `s` completes the session with
`current_node_id = some "s"`, not the node just completed. -/
theorem c10_counterexample :
    advance_bubble (some (freshState sampleGraph 1 2 0)) (some sampleGraph)
      sampleBubbles finReq 3 = Except.ok (finState, finResp) ∧
    finResp.success = true ∧ finState.is_completed = true ∧
    finState.current_node_id = some "s" ∧
    finState.current_node_id ≠ some finReq.node_id :=
  ⟨rfl, rfl, rfl, rfl, by decide⟩

/-- C10 witness: the amended retention claim instantiated on the fresh
sample state and the completing advance of `fin`. -/
theorem c10_current_node_retention_witness :
    (freshState sampleGraph 1 2 0).current_node_id ≠ none ∧
    (finState.current_node_id = (freshState sampleGraph 1 2 0).current_node_id ∧
      finState.is_completed = true) :=
  ⟨(c10_current_node_retention sampleGraph sampleBubbles).1
      (freshState sampleGraph 1 2 0) (ReachableState.start 1 2 0),
    (c10_current_node_retention sampleGraph sampleBubbles).2
      (freshState sampleGraph 1 2 0) finReq 3 finState finResp (by rfl) rfl rfl⟩

/-- Helper: `flatMap` only depends on the function's values on the
list. -/
theorem flatMap_congr_mem {α β : Type} (l : List α) (f g : α → List β)
    (h : ∀ a ∈ l, f a = g a) : l.flatMap f = l.flatMap g := by
  induction l with
  | nil => rfl
  | cons a l ih =>
    simp only [List.flatMap_cons]
    rw [h a (List.mem_cons_self a l), ih (fun x hx => h x (List.mem_cons_of_mem a hx))]

/-- Helper: adjacency targets live in the vertex universe of the graph. -/
theorem adjacency_mem_graphVerts (g : BubbleGraph) :
    ∀ v, ∀ b ∈ adjacency g.edges v, b ∈ graphVerts g := by
  intro v b hb
  unfold adjacency at hb
  rw [List.mem_map] at hb
  obtain ⟨e, he, rfl⟩ := hb
  rw [List.mem_filter] at he
  simp only [graphVerts, Finset.mem_union, List.mem_toFinset, List.mem_map,
    Finset.mem_singleton]
  exact Or.inl (Or.inr ⟨e, he.1, rfl⟩)

/-- Helper: the start node lives in the vertex universe. -/
theorem start_mem_graphVerts (g : BubbleGraph) : g.start_node ∈ graphVerts g := by
  simp [graphVerts]

/-- Helper: every path emitted by the path enumeration extends the current
path without ever revisiting a node of `visited`, so it is duplicate-free
and of bounded length. -/
theorem dfsPaths_nodup_len (adj : String → List String) (univ : Finset String)
    (hadj : ∀ v, ∀ b ∈ adj v, b ∈ univ) :
    ∀ fuel current path visited, current ∈ univ → visited ⊆ univ →
      path.Nodup → (∀ x ∈ path, x ∈ visited) →
      ∀ p ∈ dfsPaths adj fuel current path visited,
        p.Nodup ∧ p.length ≤ path.length + (univ \ visited).card := by
  intro fuel
  induction fuel with
  | zero =>
    intro current path visited _ _ _ _ p hp
    simp [dfsPaths] at hp
  | succ fuel ih =>
    intro current path visited hcur hvs hnd hmem p hp
    simp only [dfsPaths] at hp
    by_cases hv : current ∈ visited
    · simp [hv] at hp
    · rw [if_neg hv] at hp
      have hcp : current ∉ path := fun hc => hv (hmem current hc)
      have hndp : (path ++ [current]).Nodup := by
        simp [List.nodup_append, hnd, hcp]
      have hcard : current ∈ univ \ visited := Finset.mem_sdiff.mpr ⟨hcur, hv⟩
      by_cases hnil : adj current = []
      · rw [if_pos hnil] at hp
        simp only [List.mem_singleton] at hp
        subst hp
        refine ⟨hndp, ?_⟩
        have hpos : 0 < (univ \ visited).card := Finset.card_pos.mpr ⟨current, hcard⟩
        simp only [List.length_append, List.length_singleton]
        omega
      · rw [if_neg hnil] at hp
        rw [List.mem_flatMap] at hp
        obtain ⟨n, hn, hpn⟩ := hp
        have h2 := ih n (path ++ [current]) (insert current visited)
          (hadj current n hn)
          (Finset.insert_subset_iff.mpr ⟨hcur, hvs⟩)
          hndp
          (by
            intro x hx
            rcases List.mem_append.mp hx with h | h
            · exact Finset.mem_insert_of_mem (hmem x h)
            · rw [List.mem_singleton] at h
              subst h
              exact Finset.mem_insert_self x visited)
          p hpn
        refine ⟨h2.1, ?_⟩
        have hlen := h2.2
        have hcc : (univ \ insert current visited).card = (univ \ visited).card - 1 := by
          rw [Finset.sdiff_insert, Finset.card_erase_of_mem hcard]
        have hpos : 0 < (univ \ visited).card := Finset.card_pos.mpr ⟨current, hcard⟩
        simp only [List.length_append, List.length_singleton] at hlen
        omega

/-- Helper: above the vertex-count threshold, the fuel does not change the
result of the path enumeration — the embedded recursion has reached the
fixed point of the unbounded Python recursion. -/
theorem dfsPaths_fuel_stable (adj : String → List String) (univ : Finset String)
    (hadj : ∀ v, ∀ b ∈ adj v, b ∈ univ) :
    ∀ fuel1 fuel2 current path visited, current ∈ univ → visited ⊆ univ →
      (univ \ visited).card < fuel1 → (univ \ visited).card < fuel2 →
      dfsPaths adj fuel1 current path visited = dfsPaths adj fuel2 current path visited := by
  intro fuel1
  induction fuel1 with
  | zero => intro fuel2 current path visited _ _ h1 _; omega
  | succ fuel1 ih =>
    intro fuel2 current path visited hcur hvs h1 h2
    cases fuel2 with
    | zero => omega
    | succ fuel2 =>
      simp only [dfsPaths]
      by_cases hv : current ∈ visited
      · simp [hv]
      · rw [if_neg hv, if_neg hv]
        by_cases hnil : adj current = []
        · rw [if_pos hnil, if_pos hnil]
        · rw [if_neg hnil, if_neg hnil]
          apply flatMap_congr_mem
          intro n hn
          have hc : current ∈ univ \ visited := Finset.mem_sdiff.mpr ⟨hcur, hv⟩
          have hcc : (univ \ insert current visited).card = (univ \ visited).card - 1 := by
            rw [Finset.sdiff_insert, Finset.card_erase_of_mem hc]
          have hpos : 0 < (univ \ visited).card := Finset.card_pos.mpr ⟨current, hc⟩
          exact ih fuel2 n (path ++ [current]) (insert current visited)
            (hadj current n hn) (Finset.insert_subset_iff.mpr ⟨hcur, hvs⟩)
            (by omega) (by omega)

/-- C9: the depth-first path enumeration of `get_valid_paths` terminates
on every finite graph, cyclic ones included: any fuel above the
vertex-count threshold yields the same (finite) result list, and because a
node already on the current path is never revisited, every enumerated path
is duplicate-free and no longer than the number of vertices. -/
theorem c9_get_valid_paths_terminates (g : BubbleGraph) (fuel : Nat)
    (hfuel : (graphVerts g).card + 1 ≤ fuel) :
    dfsPaths (adjacency g.edges) fuel g.start_node [] ∅ = get_valid_paths g ∧
    ∀ p ∈ get_valid_paths g, p.Nodup ∧ p.length ≤ (graphVerts g).card := by
  constructor
  · unfold get_valid_paths
    exact dfsPaths_fuel_stable (adjacency g.edges) (graphVerts g)
      (adjacency_mem_graphVerts g) fuel ((graphVerts g).card + 1) g.start_node [] ∅
      (start_mem_graphVerts g) (Finset.empty_subset _)
      (by rw [Finset.sdiff_empty]; omega) (by rw [Finset.sdiff_empty]; omega)
  · intro p hp
    have h := dfsPaths_nodup_len (adjacency g.edges) (graphVerts g)
      (adjacency_mem_graphVerts g) ((graphVerts g).card + 1) g.start_node [] ∅
      (start_mem_graphVerts g) (Finset.empty_subset _) List.nodup_nil (by simp)
      p (by exact hp)
    simpa [Finset.sdiff_empty] using h

/-- C9 witness: on the sample linear graph the enumeration is stable at
fuel 4 and emits the single duplicate-free path. -/
theorem c9_get_valid_paths_terminates_witness :
    dfsPaths (adjacency sampleGraph.edges) 4 sampleGraph.start_node [] ∅ =
      get_valid_paths sampleGraph ∧
    (["s", "t1", "fin"] : List String).Nodup ∧
    (["s", "t1", "fin"] : List String).length ≤ (graphVerts sampleGraph).card :=
  ⟨(c9_get_valid_paths_terminates sampleGraph 4 (by decide)).1,
    (c9_get_valid_paths_terminates sampleGraph 4 (by decide)).2
      ["s", "t1", "fin"] (by decide)⟩

/-- Helper: membership in the adjacency list is membership of the edge in
the edge list. -/
theorem mem_adjacency (edges : List GraphEdge) (a b : String) :
    b ∈ adjacency edges a ↔ ({ from_node := a, to_node := b } : GraphEdge) ∈ edges := by
  unfold adjacency
  rw [List.mem_map]
  constructor
  · rintro ⟨e, he, rfl⟩
    rw [List.mem_filter] at he
    obtain ⟨he1, he2⟩ := he
    rcases e with ⟨ef, et⟩
    simp only [decide_eq_true_eq] at he2
    subst he2
    exact he1
  · intro he
    exact ⟨{ from_node := a, to_node := b }, by rw [List.mem_filter]; exact ⟨he, by simp⟩, rfl⟩

/-- Helper: the sequential enqueue loop of the breadth-first search adds
exactly the not-yet-visited neighbours, once each, to both the visited set
and the queue tail, and afterwards every processed neighbour is
visited. -/
theorem bfsStep_spec :
    ∀ (ns : List String) (vis : Finset String) (queue : List String),
      ∃ new : List String,
        (bfsStep vis queue ns).1 = vis ∪ new.toFinset ∧
        (bfsStep vis queue ns).2 = queue ++ new ∧
        new.Nodup ∧ (∀ x ∈ new, x ∈ ns ∧ x ∉ vis) ∧
        (∀ b ∈ ns, b ∈ vis ∪ new.toFinset) := by
  intro ns
  induction ns with
  | nil =>
    intro vis queue
    exact ⟨[], by simp [bfsStep], by simp [bfsStep], List.nodup_nil, by simp, by simp⟩
  | cons n ns ih =>
    intro vis queue
    by_cases hn : n ∈ vis
    · obtain ⟨new, h1, h2, h3, h4, h5⟩ := ih vis queue
      refine ⟨new, ?_, ?_, h3, ?_, ?_⟩
      · simp only [bfsStep]
        rw [if_pos hn, h1]
      · simp only [bfsStep]
        rw [if_pos hn, h2]
      · intro x hx
        obtain ⟨hx1, hx2⟩ := h4 x hx
        exact ⟨List.mem_cons_of_mem n hx1, hx2⟩
      · intro b hb
        rcases List.mem_cons.mp hb with rfl | hb2
        · exact Finset.mem_union_left _ hn
        · exact h5 b hb2
    · obtain ⟨new, h1, h2, h3, h4, h5⟩ := ih (insert n vis) (queue ++ [n])
      refine ⟨n :: new, ?_, ?_, ?_, ?_, ?_⟩
      · simp only [bfsStep]
        rw [if_neg hn, h1]
        ext x
        simp only [Finset.mem_union, Finset.mem_insert, List.toFinset_cons,
          List.mem_toFinset]
        tauto
      · simp only [bfsStep]
        rw [if_neg hn, h2, List.append_assoc]
        rfl
      · rw [List.nodup_cons]
        exact ⟨fun hc => (h4 n hc).2 (Finset.mem_insert_self n vis), h3⟩
      · intro x hx
        rcases List.mem_cons.mp hx with rfl | hx2
        · exact ⟨List.mem_cons_self x ns, hn⟩
        · obtain ⟨ha, hb⟩ := h4 x hx2
          exact ⟨List.mem_cons_of_mem _ ha, fun hxv => hb (Finset.mem_insert_of_mem hxv)⟩
      · intro b hb
        rcases List.mem_cons.mp hb with rfl | hb2
        · exact Finset.mem_union_right _ (by simp)
        · have hb5 := h5 b hb2
          revert hb5
          simp only [Finset.mem_union, Finset.mem_insert, List.toFinset_cons,
            List.mem_toFinset]
          tauto

/-- Helper: correctness of the breadth-first search loop: starting from a
visited set whose queue part is exactly the unprocessed frontier, the loop
returns a superset of the visited set in which every node is reachable
from the root and which is closed under the adjacency. -/
theorem bfsLoop_spec (adj : String → List String) (univ : Finset String)
    (root : String) (hadj : ∀ v, ∀ b ∈ adj v, b ∈ univ) :
    ∀ (fuel : Nat) (vis : Finset String) (queue : List String),
      vis ⊆ univ → queue.Nodup → (∀ x ∈ queue, x ∈ vis) →
      (∀ v ∈ vis, Relation.ReflTransGen (fun a b => b ∈ adj a) root v) →
      (∀ v ∈ vis, v ∉ queue → ∀ b ∈ adj v, b ∈ vis) →
      (univ \ vis).card + queue.length < fuel →
      vis ⊆ bfsLoop adj fuel vis queue ∧
      (∀ v ∈ bfsLoop adj fuel vis queue,
        Relation.ReflTransGen (fun a b => b ∈ adj a) root v) ∧
      (∀ v ∈ bfsLoop adj fuel vis queue, ∀ b ∈ adj v, b ∈ bfsLoop adj fuel vis queue) := by
  intro fuel
  induction fuel with
  | zero => intro vis queue _ _ _ _ _ hm; omega
  | succ fuel ih =>
    intro vis queue hvu hqn hqv hreach hclosed hm
    cases queue with
    | nil =>
      simp only [bfsLoop]
      exact ⟨subset_rfl, hreach, fun v hv b hb => hclosed v hv (by simp) b hb⟩
    | cons current rest =>
      simp only [bfsLoop]
      obtain ⟨new, h1, h2, h3, h4, h5⟩ := bfsStep_spec (adj current) vis rest
      rw [h1, h2]
      have hcur_vis : current ∈ vis := hqv current (List.mem_cons_self current rest)
      have hnewu : ∀ x ∈ new, x ∈ univ := fun x hx => hadj current x (h4 x hx).1
      have hrest_nodup : rest.Nodup := (List.nodup_cons.mp hqn).2
      have hsubnew : new.toFinset ⊆ univ \ vis := by
        intro x hx
        rw [List.mem_toFinset] at hx
        exact Finset.mem_sdiff.mpr ⟨hnewu x hx, (h4 x hx).2⟩
      have hsd : univ \ (vis ∪ new.toFinset) = (univ \ vis) \ new.toFinset := by
        ext x
        simp only [Finset.mem_sdiff, Finset.mem_union]
        tauto
      have hcards : ((univ \ vis) \ new.toFinset).card =
          (univ \ vis).card - new.toFinset.card := Finset.card_sdiff hsubnew
      have hct : new.toFinset.card = new.length := List.toFinset_card_of_nodup h3
      have hclen : new.toFinset.card ≤ (univ \ vis).card := Finset.card_le_card hsubnew
      obtain ⟨ha, hb, hc⟩ := ih (vis ∪ new.toFinset) (rest ++ new)
        (Finset.union_subset hvu (fun x hx => hnewu x (List.mem_toFinset.mp hx)))
        (List.Nodup.append hrest_nodup h3
          (fun a ha hb => (h4 a hb).2 (hqv a (List.mem_cons_of_mem current ha))))
        (by
          intro x hx
          rcases List.mem_append.mp hx with hx2 | hx2
          · exact Finset.mem_union_left _ (hqv x (List.mem_cons_of_mem current hx2))
          · exact Finset.mem_union_right _ (List.mem_toFinset.mpr hx2))
        (by
          intro v hv
          rcases Finset.mem_union.mp hv with hv2 | hv2
          · exact hreach v hv2
          · exact Relation.ReflTransGen.tail (hreach current hcur_vis)
              ((h4 v (List.mem_toFinset.mp hv2)).1))
        (by
          intro v hv hvq b hb
          rcases Finset.mem_union.mp hv with hv2 | hv2
          · by_cases hvc : v = current
            · subst hvc
              exact h5 b hb
            · have hvnot : v ∉ current :: rest := by
                intro hc
                rcases List.mem_cons.mp hc with hc2 | hc2
                · exact hvc hc2
                · exact hvq (List.mem_append_left _ hc2)
              exact Finset.mem_union_left _ (hclosed v hv2 hvnot b hb)
          · exact absurd (List.mem_append_right rest (List.mem_toFinset.mp hv2)) hvq)
        (by
          rw [hsd, hcards, hct, List.length_append]
          simp only [List.length_cons] at hm
          omega)
      exact ⟨Finset.Subset.trans Finset.subset_union_left ha, hb, hc⟩

/-- Helper: a node is visited by the breadth-first search of
`_find_unreachable_nodes` exactly when it is reachable from the start
node. -/
theorem bfsVisited_spec (g : BubbleGraph) (v : String) :
    v ∈ bfsVisited g ↔ ReachableFromStart g v := by
  have hstart := start_mem_graphVerts g
  obtain ⟨hsub, hreach, hclosed⟩ :=
    bfsLoop_spec (adjacency g.edges) (graphVerts g) g.start_node
      (adjacency_mem_graphVerts g) ((graphVerts g).card + 1)
      {g.start_node} [g.start_node]
      (Finset.singleton_subset_iff.mpr hstart)
      (List.nodup_singleton _)
      (by simp)
      (by
        intro v hv
        rw [Finset.mem_singleton] at hv
        subst hv
        exact Relation.ReflTransGen.refl)
      (by
        intro v hv hvq
        rw [Finset.mem_singleton] at hv
        subst hv
        exact absurd (List.mem_singleton_self _) hvq)
      (by
        have h1 : ({g.start_node} : Finset String) ⊆ graphVerts g :=
          Finset.singleton_subset_iff.mpr hstart
        have h2 : (graphVerts g \ {g.start_node}).card =
            (graphVerts g).card - 1 := by
          rw [Finset.card_sdiff h1, Finset.card_singleton]
        have h3 : 0 < (graphVerts g).card := Finset.card_pos.mpr ⟨_, hstart⟩
        rw [h2]
        simp only [List.length_singleton]
        omega)
  constructor
  · intro hv
    exact Relation.ReflTransGen.mono
      (fun a b hab => (mem_adjacency g.edges a b).mp hab)
      (hreach v hv)
  · intro hr
    unfold ReachableFromStart at hr
    induction hr with
    | refl => exact hsub (Finset.mem_singleton_self _)
    | tail hab hbc ih =>
      exact hclosed _ ih _ ((mem_adjacency g.edges _ _).mpr hbc)

/-- Helper: the `has_cycles` and `unreachable_nodes` fields of validation
are those of the dedicated checks, except on the empty graph where
validation short-circuits. -/
theorem validate_graph_fields (g : BubbleGraph) :
    (validate_graph g).has_cycles =
      (if g.nodes.length = 0 then false else has_cycles g) ∧
    (validate_graph g).unreachable_nodes =
      (if g.nodes.length = 0 then [] else find_unreachable_nodes g) := by
  unfold validate_graph
  by_cases h : g.nodes.length = 0 <;> simp [h]

/-- C6: a node of the graph appears in validation's `unreachable_nodes`
exactly when there is no directed path to it from the start node, and the
start node itself is never reported unreachable. -/
theorem c6_unreachable_nodes (g : BubbleGraph) (v : String)
    (hv : v ∈ g.nodes.map BubbleNodeSchema.id) :
    (v ∈ (validate_graph g).unreachable_nodes ↔ ¬ ReachableFromStart g v) ∧
    g.start_node ∉ (validate_graph g).unreachable_nodes := by
  have hne : g.nodes.length ≠ 0 := by
    intro h0
    rw [List.length_eq_zero] at h0
    rw [h0] at hv
    simp at hv
  constructor
  · rw [(validate_graph_fields g).2, if_neg hne]
    unfold find_unreachable_nodes
    rw [List.mem_filter]
    constructor
    · rintro ⟨-, hnv⟩
      rw [decide_eq_true_eq] at hnv
      exact fun hr => hnv ((bfsVisited_spec g v).mpr hr)
    · intro hnr
      refine ⟨hv, ?_⟩
      rw [decide_eq_true_eq]
      exact fun hvv => hnr ((bfsVisited_spec g v).mp hvv)
  · rw [(validate_graph_fields g).2, if_neg hne]
    unfold find_unreachable_nodes
    rw [List.mem_filter]
    rintro ⟨-, hs⟩
    rw [decide_eq_true_eq] at hs
    exact hs ((bfsVisited_spec g g.start_node).mpr Relation.ReflTransGen.refl)

/-- C6 witness: in the graph with a component `x ↔ y` detached from the
start node, the node `x` is reported unreachable exactly as the claim
requires, and the start node is not. -/
theorem c6_unreachable_nodes_witness :
    (("x" ∈ (validate_graph discGraph).unreachable_nodes) ↔
      ¬ ReachableFromStart discGraph "x") ∧
    discGraph.start_node ∉ (validate_graph discGraph).unreachable_nodes :=
  c6_unreachable_nodes discGraph "x" (by decide)

/-- Helper: a set closed under the adjacency contains everything reachable
from its members. -/
theorem reach_closed (adj : String → List String) (S : Finset String)
    (hclo : ∀ w ∈ S, ∀ b ∈ adj w, b ∈ S) :
    ∀ x y, x ∈ S → Relation.ReflTransGen (fun a b => b ∈ adj a) x y → y ∈ S := by
  intro x y hx hr
  induction hr with
  | refl => exact hx
  | tail hab hbc ih => exact hclo _ ih _ hbc

/-- Helper: the depth-first search of `_has_cycles` only grows the visited
set, and whenever it answers `False` it restores the recursion stack it was
called with. -/
theorem dfs_state (adj : String → List String) :
    ∀ fuel : Nat,
      (∀ visited rec_stack node,
        visited ⊆ (dfsVisit adj fuel visited rec_stack node).2.1 ∧
        ((dfsVisit adj fuel visited rec_stack node).1 = false →
          (dfsVisit adj fuel visited rec_stack node).2.2 = rec_stack)) ∧
      (∀ visited rec_stack ns,
        visited ⊆ (dfsList adj fuel visited rec_stack ns).2.1 ∧
        ((dfsList adj fuel visited rec_stack ns).1 = false →
          (dfsList adj fuel visited rec_stack ns).2.2 = rec_stack)) := by
  intro fuel
  induction fuel with
  | zero =>
    constructor
    · intro visited rec_stack node
      simp [dfsVisit]
    · intro visited rec_stack ns
      induction ns generalizing visited rec_stack with
      | nil => simp [dfsList]
      | cons n rest ihns =>
        simp only [dfsList, dfsVisit]
        simpa using ihns visited rec_stack
  | succ fuel ih =>
    obtain ⟨-, ihl⟩ := ih
    have hV : ∀ visited rec_stack node,
        visited ⊆ (dfsVisit adj (fuel + 1) visited rec_stack node).2.1 ∧
        ((dfsVisit adj (fuel + 1) visited rec_stack node).1 = false →
          (dfsVisit adj (fuel + 1) visited rec_stack node).2.2 = rec_stack) := by
      intro visited rec_stack node
      simp only [dfsVisit]
      by_cases h1 : node ∈ rec_stack
      · simp [h1]
      · rw [if_neg h1]
        by_cases h2 : node ∈ visited
        · simp [h2]
        · rw [if_neg h2]
          obtain ⟨hmono, hrec⟩ :=
            ihl (insert node visited) (insert node rec_stack) (adj node)
          cases h3 : (dfsList adj fuel (insert node visited) (insert node rec_stack)
              (adj node)).1 with
          | true =>
            simp only [h3, if_true]
            exact ⟨(Finset.subset_insert node visited).trans hmono,
              fun hcontra => absurd hcontra (by simp)⟩
          | false =>
            simp only [h3, Bool.false_eq_true, if_false]
            refine ⟨(Finset.subset_insert node visited).trans hmono, fun _ => ?_⟩
            rw [hrec h3, Finset.erase_insert h1]
    refine ⟨hV, ?_⟩
    intro visited rec_stack ns
    induction ns generalizing visited rec_stack with
    | nil => simp [dfsList]
    | cons n rest ihns =>
      simp only [dfsList]
      cases h3 : (dfsVisit adj (fuel + 1) visited rec_stack n).1 with
      | true =>
        simp only [h3, if_true]
        exact ⟨(hV visited rec_stack n).1, fun hcontra => absurd hcontra (by simp)⟩
      | false =>
        simp only [h3, Bool.false_eq_true, if_false]
        rw [(hV visited rec_stack n).2 h3]
        obtain ⟨m2, r2⟩ :=
          ihns (dfsVisit adj (fuel + 1) visited rec_stack n).2.1 rec_stack
        exact ⟨((hV visited rec_stack n).1).trans m2, r2⟩

/-- Helper: soundness of the depth-first search of `_has_cycles`: under
the invariant that every node on the recursion stack reaches the node
being visited by a non-empty path, a `True` answer exhibits a directed
cycle. -/
theorem dfs_sound (adj : String → List String) :
    ∀ fuel : Nat,
      (∀ visited rec_stack node,
        (∀ m ∈ rec_stack, Relation.TransGen (fun a b => b ∈ adj a) m node) →
        (dfsVisit adj fuel visited rec_stack node).1 = true →
        ∃ v, Relation.TransGen (fun a b => b ∈ adj a) v v) ∧
      (∀ visited rec_stack ns,
        (∀ m ∈ rec_stack, ∀ n ∈ ns, Relation.TransGen (fun a b => b ∈ adj a) m n) →
        (dfsList adj fuel visited rec_stack ns).1 = true →
        ∃ v, Relation.TransGen (fun a b => b ∈ adj a) v v) := by
  intro fuel
  induction fuel with
  | zero =>
    constructor
    · intro visited rec_stack node _ ht
      simp [dfsVisit] at ht
    · intro visited rec_stack ns
      induction ns generalizing visited rec_stack with
      | nil => intro _ ht; simp [dfsList] at ht
      | cons n rest ihns =>
        intro hpre ht
        simp only [dfsList, dfsVisit, Bool.false_eq_true, if_false] at ht
        exact ihns visited rec_stack
          (fun m hm x hx => hpre m hm x (List.mem_cons_of_mem n hx)) ht
  | succ fuel ih =>
    obtain ⟨-, ihl⟩ := ih
    have hV : ∀ visited rec_stack node,
        (∀ m ∈ rec_stack, Relation.TransGen (fun a b => b ∈ adj a) m node) →
        (dfsVisit adj (fuel + 1) visited rec_stack node).1 = true →
        ∃ v, Relation.TransGen (fun a b => b ∈ adj a) v v := by
      intro visited rec_stack node hpre ht
      simp only [dfsVisit] at ht
      by_cases h1 : node ∈ rec_stack
      · exact ⟨node, hpre node h1⟩
      · rw [if_neg h1] at ht
        by_cases h2 : node ∈ visited
        · rw [if_pos h2] at ht
          simp at ht
        · rw [if_neg h2] at ht
          cases h3 : (dfsList adj fuel (insert node visited) (insert node rec_stack)
              (adj node)).1 with
          | false =>
            rw [h3] at ht
            simp at ht
          | true =>
            refine ihl (insert node visited) (insert node rec_stack) (adj node)
              ?_ h3
            intro m hm n hn
            rcases Finset.mem_insert.mp hm with rfl | hm2
            · exact Relation.TransGen.single hn
            · exact Relation.TransGen.trans (hpre m hm2) (Relation.TransGen.single hn)
    refine ⟨hV, ?_⟩
    intro visited rec_stack ns
    induction ns generalizing visited rec_stack with
    | nil => intro _ ht; simp [dfsList] at ht
    | cons n rest ihns =>
      intro hpre ht
      simp only [dfsList] at ht
      cases h3 : (dfsVisit adj (fuel + 1) visited rec_stack n).1 with
      | true =>
        exact hV visited rec_stack n
          (fun m hm => hpre m hm n (List.mem_cons_self n rest)) h3
      | false =>
        rw [h3] at ht
        simp only [Bool.false_eq_true, if_false] at ht
        rw [((dfs_state adj (fuel + 1)).1 visited rec_stack n).2 h3] at ht
        exact ihns (dfsVisit adj (fuel + 1) visited rec_stack n).2.1 rec_stack
          (fun m hm x hx => hpre m hm x (List.mem_cons_of_mem n hx)) ht

/-- Helper: completeness invariant of the depth-first search of
`_has_cycles`.  The set of black nodes (visited and off the recursion
stack) is closed under the adjacency and cycle-free; a `False` answer
preserves the stack, grows the visited set within the universe, keeps the
invariant, and blackens the visited node — so no cycle can be reachable
through fully processed nodes. -/
theorem dfs_complete (adj : String → List String) (univ : Finset String)
    (hadj : ∀ v, ∀ b ∈ adj v, b ∈ univ) :
    ∀ fuel : Nat,
      (∀ visited rec_stack node,
        visited ⊆ univ → rec_stack ⊆ visited → node ∈ univ →
        (∀ w ∈ visited \ rec_stack, ∀ b ∈ adj w, b ∈ visited \ rec_stack) →
        (∀ w ∈ visited \ rec_stack,
          ¬ Relation.TransGen (fun a b => b ∈ adj a) w w) →
        (univ \ visited).card < fuel →
        (dfsVisit adj fuel visited rec_stack node).1 = false →
        (dfsVisit adj fuel visited rec_stack node).2.1 ⊆ univ ∧
        visited ⊆ (dfsVisit adj fuel visited rec_stack node).2.1 ∧
        (dfsVisit adj fuel visited rec_stack node).2.2 = rec_stack ∧
        (∀ w ∈ (dfsVisit adj fuel visited rec_stack node).2.1 \ rec_stack,
          ∀ b ∈ adj w, b ∈ (dfsVisit adj fuel visited rec_stack node).2.1 \ rec_stack) ∧
        (∀ w ∈ (dfsVisit adj fuel visited rec_stack node).2.1 \ rec_stack,
          ¬ Relation.TransGen (fun a b => b ∈ adj a) w w) ∧
        node ∈ (dfsVisit adj fuel visited rec_stack node).2.1 ∧ node ∉ rec_stack) ∧
      (∀ visited rec_stack ns,
        visited ⊆ univ → rec_stack ⊆ visited → (∀ n ∈ ns, n ∈ univ) →
        (∀ w ∈ visited \ rec_stack, ∀ b ∈ adj w, b ∈ visited \ rec_stack) →
        (∀ w ∈ visited \ rec_stack,
          ¬ Relation.TransGen (fun a b => b ∈ adj a) w w) →
        (univ \ visited).card + 1 ≤ fuel →
        (dfsList adj fuel visited rec_stack ns).1 = false →
        (dfsList adj fuel visited rec_stack ns).2.1 ⊆ univ ∧
        visited ⊆ (dfsList adj fuel visited rec_stack ns).2.1 ∧
        (dfsList adj fuel visited rec_stack ns).2.2 = rec_stack ∧
        (∀ w ∈ (dfsList adj fuel visited rec_stack ns).2.1 \ rec_stack,
          ∀ b ∈ adj w, b ∈ (dfsList adj fuel visited rec_stack ns).2.1 \ rec_stack) ∧
        (∀ w ∈ (dfsList adj fuel visited rec_stack ns).2.1 \ rec_stack,
          ¬ Relation.TransGen (fun a b => b ∈ adj a) w w) ∧
        (∀ n ∈ ns, n ∈ (dfsList adj fuel visited rec_stack ns).2.1 ∧ n ∉ rec_stack)) := by
  intro fuel
  induction fuel with
  | zero =>
    constructor
    · intro visited rec_stack node _ _ _ _ _ hfc
      omega
    · intro visited rec_stack ns _ _ _ _ _ hfc
      omega
  | succ fuel ih =>
    obtain ⟨-, ihQ⟩ := ih
    have hP : ∀ visited rec_stack node,
        visited ⊆ univ → rec_stack ⊆ visited → node ∈ univ →
        (∀ w ∈ visited \ rec_stack, ∀ b ∈ adj w, b ∈ visited \ rec_stack) →
        (∀ w ∈ visited \ rec_stack,
          ¬ Relation.TransGen (fun a b => b ∈ adj a) w w) →
        (univ \ visited).card < fuel + 1 →
        (dfsVisit adj (fuel + 1) visited rec_stack node).1 = false →
        (dfsVisit adj (fuel + 1) visited rec_stack node).2.1 ⊆ univ ∧
        visited ⊆ (dfsVisit adj (fuel + 1) visited rec_stack node).2.1 ∧
        (dfsVisit adj (fuel + 1) visited rec_stack node).2.2 = rec_stack ∧
        (∀ w ∈ (dfsVisit adj (fuel + 1) visited rec_stack node).2.1 \ rec_stack,
          ∀ b ∈ adj w,
            b ∈ (dfsVisit adj (fuel + 1) visited rec_stack node).2.1 \ rec_stack) ∧
        (∀ w ∈ (dfsVisit adj (fuel + 1) visited rec_stack node).2.1 \ rec_stack,
          ¬ Relation.TransGen (fun a b => b ∈ adj a) w w) ∧
        node ∈ (dfsVisit adj (fuel + 1) visited rec_stack node).2.1 ∧
        node ∉ rec_stack := by
      intro visited rec_stack node hvu hrv hnu hclo hacy hfc hfalse
      simp only [dfsVisit] at hfalse ⊢
      by_cases h1 : node ∈ rec_stack
      · rw [if_pos h1] at hfalse
        simp at hfalse
      · rw [if_neg h1] at hfalse ⊢
        by_cases h2 : node ∈ visited
        · rw [if_pos h2] at hfalse ⊢
          exact ⟨hvu, subset_rfl, rfl, hclo, hacy, h2, h1⟩
        · rw [if_neg h2] at hfalse ⊢
          cases h3 : (dfsList adj fuel (insert node visited) (insert node rec_stack)
              (adj node)).1 with
          | true =>
            simp [h3] at hfalse
          | false =>
            simp only [h3, Bool.false_eq_true, if_false] at hfalse ⊢
            have hS1 : insert node visited \ insert node rec_stack =
                visited \ rec_stack := by
              ext x
              by_cases hx : x = node
              · subst hx
                simp [h2]
              · simp [Finset.mem_sdiff, Finset.mem_insert, hx]
            obtain ⟨hu2, hm2, hr2, hclo2, hacy2, hns2⟩ :=
              ihQ (insert node visited) (insert node rec_stack) (adj node)
                (Finset.insert_subset_iff.mpr ⟨hnu, hvu⟩)
                (Finset.insert_subset_insert node hrv)
                (fun b hb => hadj node b hb)
                (by rw [hS1]; exact hclo)
                (by rw [hS1]; exact hacy)
                (by
                  have hcc : (univ \ insert node visited).card =
                      (univ \ visited).card - 1 := by
                    rw [Finset.sdiff_insert,
                      Finset.card_erase_of_mem (Finset.mem_sdiff.mpr ⟨hnu, h2⟩)]
                  have hpos : 0 < (univ \ visited).card :=
                    Finset.card_pos.mpr ⟨node, Finset.mem_sdiff.mpr ⟨hnu, h2⟩⟩
                  omega)
                h3
            have hnode2 : node ∈ (dfsList adj fuel (insert node visited)
                (insert node rec_stack) (adj node)).2.1 :=
              hm2 (Finset.mem_insert_self node visited)
            have hrec3 : (dfsList adj fuel (insert node visited)
                (insert node rec_stack) (adj node)).2.2.erase node = rec_stack := by
              rw [hr2, Finset.erase_insert h1]
            have hset2 : (dfsList adj fuel (insert node visited)
                  (insert node rec_stack) (adj node)).2.1 \ rec_stack =
                insert node ((dfsList adj fuel (insert node visited)
                  (insert node rec_stack) (adj node)).2.1 \ insert node rec_stack) := by
              ext x
              by_cases hx : x = node
              · subst hx
                simp [hnode2, h1]
              · simp [Finset.mem_sdiff, Finset.mem_insert, hx]
            refine ⟨hu2, (Finset.subset_insert node visited).trans hm2, hrec3,
              ?_, ?_, hnode2, h1⟩
            · rw [hset2]
              intro w hw b hb
              rcases Finset.mem_insert.mp hw with rfl | hw2
              · obtain ⟨hb1, hb2⟩ := hns2 b hb
                exact Finset.mem_insert_of_mem (Finset.mem_sdiff.mpr ⟨hb1, hb2⟩)
              · exact Finset.mem_insert_of_mem (hclo2 w hw2 b hb)
            · rw [hset2]
              intro w hw
              rcases Finset.mem_insert.mp hw with rfl | hw2
              · intro hcyc
                obtain ⟨b, hb, hrest⟩ := (Relation.TransGen.head'_iff).mp hcyc
                obtain ⟨hb1, hb2⟩ := hns2 b hb
                have hbS : b ∈ (dfsList adj fuel (insert w visited)
                    (insert w rec_stack) (adj w)).2.1 \ insert w rec_stack :=
                  Finset.mem_sdiff.mpr ⟨hb1, hb2⟩
                have hwS := reach_closed adj _ hclo2 b w hbS hrest
                exact (Finset.mem_sdiff.mp hwS).2 (Finset.mem_insert_self w rec_stack)
              · exact hacy2 w hw2
    refine ⟨hP, ?_⟩
    intro visited rec_stack ns
    induction ns generalizing visited with
    | nil =>
      intro hvu hrv _ hclo hacy _ _
      simp only [dfsList]
      exact ⟨hvu, subset_rfl, trivial, hclo, hacy, by simp⟩
    | cons n rest ihns =>
      intro hvu hrv hnsu hclo hacy hfc hfalse
      simp only [dfsList] at hfalse ⊢
      cases h3 : (dfsVisit adj (fuel + 1) visited rec_stack n).1 with
      | true =>
        simp [h3] at hfalse
      | false =>
        simp only [h3, Bool.false_eq_true, if_false] at hfalse ⊢
        obtain ⟨hu1, hm1, hr1, hclo1, hacy1, hn1, hn1r⟩ :=
          hP visited rec_stack n hvu hrv (hnsu n (List.mem_cons_self n rest))
            hclo hacy (by omega) h3
        rw [hr1] at hfalse ⊢
        obtain ⟨hu2, hm2, hr2, hclo2, hacy2, hns2⟩ :=
          ihns (dfsVisit adj (fuel + 1) visited rec_stack n).2.1 hu1
            (hrv.trans hm1) (fun x hx => hnsu x (List.mem_cons_of_mem n hx))
            hclo1 hacy1
            (by
              have hs : univ \ (dfsVisit adj (fuel + 1) visited rec_stack n).2.1 ⊆
                  univ \ visited :=
                Finset.sdiff_subset_sdiff (Finset.Subset.refl univ) hm1
              have := Finset.card_le_card hs
              omega)
            hfalse
        refine ⟨hu2, hm1.trans hm2, hr2, hclo2, hacy2, ?_⟩
        intro x hx
        rcases List.mem_cons.mp hx with rfl | hx2
        · exact ⟨hm2 hn1, hn1r⟩
        · exact hns2 x hx2

/-- Helper: soundness of the per-root loop of `_has_cycles` — a `True`
answer exhibits a directed cycle. -/
theorem cyclesLoop_true (adj : String → List String) (fuel : Nat) :
    ∀ (roots : List String) (visited : Finset String),
      cyclesLoop adj fuel visited ∅ roots = true →
      ∃ v, Relation.TransGen (fun a b => b ∈ adj a) v v := by
  intro roots
  induction roots with
  | nil =>
    intro visited ht
    simp [cyclesLoop] at ht
  | cons r rest ih =>
    intro visited ht
    simp only [cyclesLoop] at ht
    by_cases hr : r ∈ visited
    · rw [if_pos hr] at ht
      exact ih visited ht
    · rw [if_neg hr] at ht
      cases h3 : (dfsVisit adj fuel visited ∅ r).1 with
      | true => exact (dfs_sound adj fuel).1 visited ∅ r (by simp) h3
      | false =>
        simp only [h3, Bool.false_eq_true, if_false] at ht
        rw [((dfs_state adj fuel).1 visited ∅ r).2 h3] at ht
        exact ih _ ht

/-- Helper: completeness of the per-root loop of `_has_cycles` — a `False`
answer yields a cycle-free closed superset of the visited set containing
every root, so no root lies on a directed cycle. -/
theorem cyclesLoop_false (adj : String → List String) (univ : Finset String)
    (hadj : ∀ v, ∀ b ∈ adj v, b ∈ univ) :
    ∀ (roots : List String) (visited : Finset String),
      visited ⊆ univ → (∀ r ∈ roots, r ∈ univ) →
      (∀ w ∈ visited, ∀ b ∈ adj w, b ∈ visited) →
      (∀ w ∈ visited, ¬ Relation.TransGen (fun a b => b ∈ adj a) w w) →
      cyclesLoop adj (univ.card + 1) visited ∅ roots = false →
      ∃ visF : Finset String, visited ⊆ visF ∧
        (∀ w ∈ visF, ¬ Relation.TransGen (fun a b => b ∈ adj a) w w) ∧
        (∀ r ∈ roots, r ∈ visF) := by
  intro roots
  induction roots with
  | nil =>
    intro visited hvu _ _ hacy _
    exact ⟨visited, subset_rfl, hacy, by simp⟩
  | cons r rest ih =>
    intro visited hvu hru hclo hacy hf
    simp only [cyclesLoop] at hf
    by_cases hr : r ∈ visited
    · rw [if_pos hr] at hf
      obtain ⟨visF, h1, h2, h3⟩ :=
        ih visited hvu (fun x hx => hru x (List.mem_cons_of_mem r hx)) hclo hacy hf
      refine ⟨visF, h1, h2, ?_⟩
      intro x hx
      rcases List.mem_cons.mp hx with rfl | hx2
      · exact h1 hr
      · exact h3 x hx2
    · rw [if_neg hr] at hf
      cases h3 : (dfsVisit adj (univ.card + 1) visited ∅ r).1 with
      | true => simp [h3] at hf
      | false =>
        simp only [h3, Bool.false_eq_true, if_false] at hf
        obtain ⟨hu1, hm1, hr1, hclo1, hacy1, hrin, -⟩ :=
          (dfs_complete adj univ hadj (univ.card + 1)).1 visited ∅ r hvu
            (Finset.empty_subset _) (hru r (List.mem_cons_self r rest))
            (by
              rw [Finset.sdiff_empty]
              exact hclo)
            (by
              rw [Finset.sdiff_empty]
              exact hacy)
            (by
              have := Finset.card_le_card
                (Finset.sdiff_subset : univ \ visited ⊆ univ)
              omega)
            h3
        rw [Finset.sdiff_empty] at hclo1 hacy1
        rw [hr1] at hf
        obtain ⟨visF, hh1, hh2, hh3⟩ :=
          ih (dfsVisit adj (univ.card + 1) visited ∅ r).2.1 hu1
            (fun x hx => hru x (List.mem_cons_of_mem r hx)) hclo1 hacy1 hf
        refine ⟨visF, hm1.trans hh1, hh2, ?_⟩
        intro x hx
        rcases List.mem_cons.mp hx with rfl | hx2
        · exact hh1 hrin
        · exact hh3 x hx2

/-- Helper: the node ids live in the vertex universe. -/
theorem node_id_mem_graphVerts (g : BubbleGraph) :
    ∀ r ∈ g.nodes.map BubbleNodeSchema.id, r ∈ graphVerts g := by
  intro r hr
  exact Finset.mem_union_left _ (Finset.mem_union_left _
    (Finset.mem_union_left _ (List.mem_toFinset.mpr hr)))

/-- Helper: `_has_cycles` answers `true` exactly when the graph has a
directed cycle, provided every edge leaves a declared node (the pydantic
schema invariant). -/
theorem has_cycles_iff (g : BubbleGraph)
    (hfrom : ∀ e ∈ g.edges, e.from_node ∈ g.nodes.map BubbleNodeSchema.id) :
    has_cycles g = true ↔ HasCycleSpec g := by
  constructor
  · intro ht
    unfold has_cycles at ht
    obtain ⟨v, hv⟩ :=
      cyclesLoop_true (adjacency g.edges) ((graphVerts g).card + 1)
        (g.nodes.map BubbleNodeSchema.id) ∅ ht
    exact ⟨v, Relation.TransGen.mono
      (fun a b hab => (mem_adjacency g.edges a b).mp hab) hv⟩
  · rintro ⟨v, hv⟩
    by_contra hne
    have hfalse : has_cycles g = false := by
      cases hcb : has_cycles g
      · rfl
      · exact absurd hcb hne
    unfold has_cycles at hfalse
    obtain ⟨visF, -, hacy, hroots⟩ :=
      cyclesLoop_false (adjacency g.edges) (graphVerts g)
        (adjacency_mem_graphVerts g) (g.nodes.map BubbleNodeSchema.id) ∅
        (Finset.empty_subset _) (node_id_mem_graphVerts g)
        (by simp) (by simp) hfalse
    have hvadj : Relation.TransGen (fun a b => b ∈ adjacency g.edges a) v v :=
      Relation.TransGen.mono (fun a b hab => (mem_adjacency g.edges a b).mpr hab) hv
    obtain ⟨b, hb, -⟩ := (Relation.TransGen.head'_iff).mp hvadj
    obtain ⟨e, he, hef⟩ : ∃ e ∈ g.edges, e.from_node = v := by
      rw [mem_adjacency g.edges v b] at hb
      exact ⟨{ from_node := v, to_node := b }, hb, rfl⟩
    have hvroot : v ∈ g.nodes.map BubbleNodeSchema.id := by
      rw [← hef]
      exact hfrom e he
    exact hacy v (hroots v hvroot) hvadj

/-- C5: validation reports `has_cycles = true` exactly when the graph
contains a directed cycle — including cycles in components unreachable
from the start node — and `false` on every DAG; the hypothesis is the
pydantic schema invariant that every edge leaves a declared node. -/
theorem c5_has_cycles (g : BubbleGraph)
    (hfrom : ∀ e ∈ g.edges, e.from_node ∈ g.nodes.map BubbleNodeSchema.id) :
    (validate_graph g).has_cycles = true ↔ HasCycleSpec g := by
  rw [(validate_graph_fields g).1]
  by_cases h : g.nodes.length = 0
  · rw [if_pos h]
    constructor
    · intro hcontra
      exact absurd hcontra (by simp)
    · rintro ⟨v, hv⟩
      obtain ⟨b, hb, -⟩ := (Relation.TransGen.head'_iff).mp hv
      have hvids := hfrom { from_node := v, to_node := b } hb
      rw [List.length_eq_zero] at h
      rw [h] at hvids
      simp at hvids
  · rw [if_neg h]
    exact has_cycles_iff g hfrom

/-- C5 witness: the three-node ring satisfies the schema invariant, is
reported cyclic by validation, and the detached two-node cycle of
`discGraph` is also reported even though unreachable from the start. -/
theorem c5_has_cycles_witness :
    (validate_graph ringGraph).has_cycles = true ∧
    (validate_graph discGraph).has_cycles = true :=
  ⟨(c5_has_cycles ringGraph (by decide)).mpr
      ⟨"a", Relation.TransGen.head (show EdgeRel ringGraph "a" "b" by decide)
        (Relation.TransGen.head (show EdgeRel ringGraph "b" "c" by decide)
          (Relation.TransGen.single (show EdgeRel ringGraph "c" "a" by decide)))⟩,
    (c5_has_cycles discGraph (by decide)).mpr
      ⟨"x", Relation.TransGen.head (show EdgeRel discGraph "x" "y" by decide)
        (Relation.TransGen.single (show EdgeRel discGraph "y" "x" by decide))⟩⟩

end AITutor
